import Mathlib

/-!
# Verification of the spo-backend theme video publish/archive core

This file shallowly embeds the core of the `spo-backend` repository:

* the theme video status resolver, archive/unarchive engine and batch
  publish orchestrator of `src/services/theme.service.ts`,
* the two concrete Resource Store backends
  (`src/resources/providers/local.resource.ts` and
  `src/resources/providers/webdav.resource.ts`) over an explicit
  in-memory filesystem model,
* the Node `path` utilities (POSIX flavour) that the service uses
  (`path.join`, `path.dirname`, `path.basename`, `path.extname`,
  `path.parse(..).name`), restricted to the normalized path strings the
  service manipulates.

Stateful TypeScript code becomes explicit state passing (`Except` for
exceptions, a threaded state for the mutated filesystem).  Asynchronous
calls are sequentialized exactly as the `await`-loops of the source.
-/

namespace Spo

/-- Decidable equality for `Except`, used to evaluate closed runs of the
embedded operations. -/
instance {ε α : Type} [DecidableEq ε] [DecidableEq α] : DecidableEq (Except ε α) := fun x y =>
  match x, y with
  | .ok a, .ok b =>
    if h : a = b then isTrue (by rw [h]) else isFalse (fun hh => by cases hh; exact h rfl)
  | .error a, .error b =>
    if h : a = b then isTrue (by rw [h]) else isFalse (fun hh => by cases hh; exact h rfl)
  | .ok _, .error _ => isFalse (fun hh => by cases hh)
  | .error _, .ok _ => isFalse (fun hh => by cases hh)

/-! ## Character-level string utilities

Lean's built-in `String.splitOn`, `String.toLower`, `String.endsWith`
and friends do not reduce inside the kernel, so every string operation
used by the embedding is programmed on the underlying `List Char`. -/

/-- The characters of `a ++ b` are the characters of `a` followed by those of `b`. -/
theorem strData_append (a b : String) : (a ++ b).data = a.data ++ b.data := by
  cases a; cases b; rfl

/-- Two strings are equal iff their character lists are equal. -/
theorem strMk_eq_iff (l m : List Char) : (⟨l⟩ : String) = ⟨m⟩ ↔ l = m := by
  constructor
  · intro h; cases h; rfl
  · intro h; cases h; rfl

/-- Rebuilding a string from its own characters is the identity. -/
theorem strMk_data (s : String) : (⟨s.data⟩ : String) = s := by
  cases s; rfl

/-- String append is associative. -/
theorem strAppend_assoc (a b c : String) : a ++ b ++ c = a ++ (b ++ c) := by
  cases a; cases b; cases c
  rw [strMk_eq_iff]
  show (_ ++ _) ++ _ = _ ++ (_ ++ _)
  rw [List.append_assoc]

/-- A string is empty iff its character list is. -/
theorem strEmpty_iff (s : String) : s = "" ↔ s.data = [] := by
  cases s with
  | mk l =>
    show (⟨l⟩ : String) = ⟨[]⟩ ↔ _
    rw [strMk_eq_iff]

/-- Models JavaScript `String.prototype.endsWith` (equivalently Lean's
`String.endsWith`): `t` is a suffix of `s`. -/
def charEndsWith (s t : String) : Bool :=
  t.data.isSuffixOf s.data

/-- Models JavaScript `String.prototype.startsWith`: `t` is a leading
piece of `s`. -/
def charStartsWith (s t : String) : Bool :=
  t.data.isPrefixOf s.data

/-- Models Node `path.basename` on normalized POSIX paths: the part of
the path after the last `/` (the whole path when it has no `/`). -/
def basename (p : String) : String :=
  ⟨(p.data.reverse.takeWhile (fun c => c != '/')).reverse⟩

/-- The continuation of `dirname` on the reversed remainder from the
last slash.  Its argument is always a `dropWhile (· != '/')` result, so
a non-empty argument necessarily has head `'/'`: the second pattern
therefore only ever fires on `['/']`. -/
def dirnameAux : List Char → String
  | [] => "."
  | [_] => "/"
  | _ :: rest => ⟨rest.reverse⟩

/-- Models Node `path.dirname` on normalized POSIX paths (no trailing
slash): everything before the last `/`; `"."` when there is no `/`;
`"/"` for a top-level entry. -/
def dirname (p : String) : String :=
  dirnameAux (p.data.reverse.dropWhile (fun c => c != '/'))

/-- Models Node `path.join` for two already-normalized segments (the
only shape the service ever joins): no duplicate-slash or dot-segment
normalization is required on such inputs. -/
def pathJoin (a b : String) : String :=
  if a = "" then b
  else if b = "" then a
  else if charEndsWith a "/" then a ++ b
  else a ++ "/" ++ b

/-- Models Node `path.extname`: the suffix of the basename from its last
dot, empty when the basename has no dot or only a leading dot. -/
def extname (p : String) : String :=
  let bn := basename p
  let rev := bn.data.reverse
  let pre := rev.takeWhile (fun c => c != '.')
  if pre.length = rev.length then ""
  else if pre.length + 1 = rev.length then ""
  else ⟨'.' :: pre.reverse⟩

/-- Models JavaScript `String.prototype.toLowerCase`, restricted to the
per-character lowering that the ASCII extension strings need. -/
def strToLower (s : String) : String :=
  ⟨s.data.map Char.toLower⟩

/-- Models Node `path.parse(p).name`: the basename with its extension
stripped. -/
def parseName (p : String) : String :=
  let bn := basename p
  ⟨bn.data.take (bn.data.length - (extname bn).data.length)⟩

/-! ## Data model

`ResourceInfo` is the entry shape produced by a Resource Store `list`
call (`src/resources/types.ts`); the metadata fields (`size`,
`modifiedTime`, `extension`, `duration`, `resolution`) are omitted: no
control flow of the embedded operations inspects them.  `rtype` embeds
the `type` field. -/

structure ResourceInfo where
  name : String
  path : String
  rtype : String
  deriving DecidableEq, Repr

/-- A video entry as produced by `ThemeService.getThemeVideos`: a
`ResourceInfo` spread together with the location tags and the derived
`isPublished` flag (`theme.service.ts:133-139,155-161`).  -/
structure VideoEntry where
  name : String
  libraryId : Nat
  libraryPath : String
  fullPath : String
  isPublished : Bool
  deriving DecidableEq, Repr

/-- A `(libraryId, folderPath)` resource root of a theme. -/
structure ResourceRoot where
  libraryId : Nat
  folderPath : String
  deriving DecidableEq, Repr

/-- Modelled from the spec: the Theme Registry record (`theme.model.ts`
is not under `src/`; §3 of the spec describes a theme as a name, an
optional archive-folder name defaulting to `"published"`, linked
accounts and an ordered list of resource roots).  Only the fields the
embedded operations read are kept; `none` models a null/undefined
`archiveFolderName` column. -/
structure Theme where
  archiveFolderName : Option String
  resourceRoots : List ResourceRoot
  deriving DecidableEq, Repr

/-- The effective archive folder name
(`theme.archiveFolderName || 'published'` in the source): JavaScript
`||` falls back on `null`/`undefined` and on the empty string. -/
def effArchiveFolderName (t : Theme) : String :=
  match t.archiveFolderName with
  | none => "published"
  | some s => if s = "" then "published" else s

/-- The Resource Store interface consumed by the theme service, with
explicit state `σ` for the backend filesystem:

* `getLib` models `ResourceService.getLibraryInstance` (throws when the
  library is missing or inactive, read-only),
* `browse` models `resourceService.browseLibrary(libraryId, path,
  {type: 'video'})` (a listing already filtered to videos; throws only
  via `getLibraryInstance`),
* `getInfo`, `createFolder`, `move` model the corresponding instance
  methods; `move` and `createFolder` may mutate the backend. -/
structure Store (σ : Type) where
  getLib : σ → Nat → Except String Unit
  browse : σ → Nat → String → Except String (List ResourceInfo)
  getInfo : σ → Nat → String → Except String String
  createFolder : σ → Nat → String → Except String σ
  move : σ → Nat → String → String → Except String σ

/-- A world: the theme registry (`ThemeModel.findById`) plus the
resource store.  The registry is read-only for every embedded
operation. -/
structure World (σ : Type) where
  themes : Nat → Option Theme
  store : Store σ

/-! ## ThemeService.getThemeVideos (theme.service.ts:109-174)

The resolver walks every resource root: the main-folder listing is
tagged `isPublished = false`, the archive-folder listing
`isPublished = true`; a failing archive listing is swallowed for that
root (inner catch), a failing main listing skips the whole root (outer
catch).  `fullPath` is built by template-literal concatenation, while
`archivePath` uses `path.join`. -/

/-- The body of the `for (const resourcePath of resourcePaths)` loop of
`getThemeVideos` (theme.service.ts:121-171), one iteration pushing onto
the accumulated `allVideos`. -/
def resolveRootStep {σ : Type} (S : Store σ) (s : σ) (archiveFolderName : String)
    (allVideos : List VideoEntry) (resourcePath : ResourceRoot) : List VideoEntry :=
  match S.browse s resourcePath.libraryId resourcePath.folderPath with
  | .error _ => allVideos
  | .ok mainResources =>
    let mainVideos := mainResources.filter (fun r => r.rtype == "video")
    let mainVideosWithInfo := mainVideos.map (fun video =>
      { name := video.name
        libraryId := resourcePath.libraryId
        libraryPath := resourcePath.folderPath
        fullPath := resourcePath.folderPath ++ "/" ++ video.name
        isPublished := false : VideoEntry })
    let acc := allVideos ++ mainVideosWithInfo
    let archivePath := pathJoin resourcePath.folderPath archiveFolderName
    match S.browse s resourcePath.libraryId archivePath with
    | .error _ => acc
    | .ok archiveResources =>
      let archiveVideos := archiveResources.filter (fun r => r.rtype == "video")
      acc ++ archiveVideos.map (fun video =>
        { name := video.name
          libraryId := resourcePath.libraryId
          libraryPath := archivePath
          fullPath := archivePath ++ "/" ++ video.name
          isPublished := true : VideoEntry })

def getThemeVideos {σ : Type} (w : World σ) (s : σ) (themeId : Nat) :
    Except String (List VideoEntry) :=
  match w.themes themeId with
  | none => .error "主题库不存在"
  | some theme =>
    let archiveFolderName := effArchiveFolderName theme
    .ok (theme.resourceRoots.foldl (resolveRootStep w.store s archiveFolderName) [])

/-- `ThemeService.getThemeStatistics` (theme.service.ts:221-232). -/
def getThemeStatistics {σ : Type} (w : World σ) (s : σ) (themeId : Nat) :
    Except String (Nat × Nat) :=
  match getThemeVideos w s themeId with
  | .error e => .error e
  | .ok videos =>
    .ok ((videos.filter (fun v => v.isPublished)).length,
         (videos.filter (fun v => !v.isPublished)).length)

/-! ## ThemeService.archiveVideo / unarchiveVideo (theme.service.ts:363-431) -/

/-- `ThemeService.archiveVideo`: resolve the theme, look up the library,
derive `archivePath = join(dirname videoPath, archiveFolderName)` and
`targetPath = join(archivePath, basename videoPath)`, create the archive
folder when `getInfo` on it fails, then move the video there. -/
def archiveVideo {σ : Type} (w : World σ) (s : σ) (themeId libraryId : Nat)
    (videoPath : String) : Except String σ :=
  match w.themes themeId with
  | none => .error "主题库不存在"
  | some theme =>
    match w.store.getLib s libraryId with
    | .error e => .error e
    | .ok _ =>
      let directory := dirname videoPath
      let filename := basename videoPath
      let archiveFolderName := effArchiveFolderName theme
      let archivePath := pathJoin directory archiveFolderName
      let targetPath := pathJoin archivePath filename
      let ensured : Except String σ :=
        match w.store.getInfo s libraryId archivePath with
        | .ok _ => .ok s
        | .error _ => w.store.createFolder s libraryId archivePath
      match ensured with
      | .error e => .error e
      | .ok s1 => w.store.move s1 libraryId videoPath targetPath

/-- `ThemeService.unarchiveVideo`: the guard is the *string suffix*
test `directory.endsWith(archiveFolderName)`; the target is
`join(dirname directory, basename videoPath)`, one level up. -/
def unarchiveVideo {σ : Type} (w : World σ) (s : σ) (themeId libraryId : Nat)
    (videoPath : String) : Except String σ :=
  match w.themes themeId with
  | none => .error "主题库不存在"
  | some theme =>
    match w.store.getLib s libraryId with
    | .error e => .error e
    | .ok _ =>
      let directory := dirname videoPath
      let filename := basename videoPath
      let archiveFolderName := effArchiveFolderName theme
      if !(charEndsWith directory archiveFolderName) then
        .error "视频不在归档文件夹中"
      else
        let parentDir := dirname directory
        let targetPath := pathJoin parentDir filename
        w.store.move s libraryId videoPath targetPath

/-! ## Batch archive / unarchive (theme.service.ts:436-523) -/

/-- One entry of the `results` array of a batch report; `message` is
present exactly on the failure entries. -/
structure ItemResult where
  path : String
  success : Bool
  message : Option String
  deriving DecidableEq, Repr

/-- Report of `batchArchiveVideos`. -/
structure ArchiveReport where
  total : Nat
  archived : Nat
  failed : Nat
  results : List ItemResult
  deriving DecidableEq, Repr

/-- Report of `batchUnarchiveVideos`. -/
structure UnarchiveReport where
  total : Nat
  unarchived : Nat
  failed : Nat
  results : List ItemResult
  deriving DecidableEq, Repr

/-- The sequential `for`-over-`await` loop shared by both batch
operations: run `op` on each video in turn, converting a success into a
`{path, success: true}` entry and a caught error into
`{path, success: false, message}` — the state is kept unchanged on
failure and the loop never short-circuits. -/
def runBatchLoop {σ : Type} (op : σ → VideoEntry → Except String σ) :
    σ → List VideoEntry → List ItemResult × σ
  | s, [] => ([], s)
  | s, video :: rest =>
    match op s video with
    | .ok s2 =>
      let (results, s3) := runBatchLoop op s2 rest
      (⟨video.fullPath, true, none⟩ :: results, s3)
    | .error e =>
      let (results, s3) := runBatchLoop op s rest
      (⟨video.fullPath, false, some e⟩ :: results, s3)

/-- `ThemeService.batchArchiveVideos`: filter the inventory to requested
paths that are currently unpublished, attempt each, and report
`total = |videoPaths|`, `archived`/`failed` = success/failure counts of
the attempts. -/
def batchArchiveVideos {σ : Type} (w : World σ) (s : σ) (themeId : Nat)
    (videoPaths : List String) : Except String (ArchiveReport × σ) :=
  match w.themes themeId with
  | none => .error "主题库不存在"
  | some _ =>
    match getThemeVideos w s themeId with
    | .error e => .error e
    | .ok allVideos =>
      let videosToArchive := allVideos.filter (fun video =>
        videoPaths.contains video.fullPath && !video.isPublished)
      let (results, s') := runBatchLoop
        (fun st video => archiveVideo w st themeId video.libraryId video.fullPath)
        s videosToArchive
      .ok ({ total := videoPaths.length
             archived := (results.filter (fun r => r.success)).length
             failed := (results.filter (fun r => !r.success)).length
             results := results }, s')

/-- `ThemeService.batchUnarchiveVideos`: the mirror of
`batchArchiveVideos` with eligibility `isPublished == true`. -/
def batchUnarchiveVideos {σ : Type} (w : World σ) (s : σ) (themeId : Nat)
    (videoPaths : List String) : Except String (UnarchiveReport × σ) :=
  match w.themes themeId with
  | none => .error "主题库不存在"
  | some _ =>
    match getThemeVideos w s themeId with
    | .error e => .error e
    | .ok allVideos =>
      let videosToUnarchive := allVideos.filter (fun video =>
        videoPaths.contains video.fullPath && video.isPublished)
      let (results, s') := runBatchLoop
        (fun st video => unarchiveVideo w st themeId video.libraryId video.fullPath)
        s videosToUnarchive
      .ok ({ total := videoPaths.length
             unarchived := (results.filter (fun r => r.success)).length
             failed := (results.filter (fun r => !r.success)).length
             results := results }, s')

/-! ## Batch publish orchestrator (theme.service.ts:237-309)

The Task Sink (`UploadService.createTask`, spec §6) is external: it is
"opaque beyond returning an identifier", so it is modelled as a total
state transformer returning the new task id. -/

/-- The data handed to `uploadService.createTask` for one task
(`theme.service.ts:283-290`); `platformId` receives the account id. -/
structure TaskCreateData where
  platformId : Nat
  libraryId : Nat
  resourcePath : String
  title : String
  tags : String
  deriving DecidableEq, Repr

/-- An external Task Sink: creating a task yields its id and the next
sink state. -/
structure TaskSink (τ : Type) where
  createTask : τ → TaskCreateData → Nat × τ

/-- The canonical recording sink: the state is the list of created
tasks, ids are allocated sequentially from 1. -/
def recordingSink : TaskSink (List TaskCreateData) where
  createTask := fun t d => (t.length + 1, t ++ [d])

/-- One element of the `tasks` array returned by
`batchPublishThemeVideos` (`theme.service.ts:292-299`). -/
structure PublishedTask where
  taskId : Nat
  accountId : Nat
  videoName : String
  videoPath : String
  libraryId : Nat
  autoArchive : Bool
  deriving DecidableEq, Repr

/-- The report returned by `batchPublishThemeVideos`
(`theme.service.ts:303-308`). -/
structure PublishReport where
  tasks : List PublishedTask
  totalTasks : Nat
  accountCount : Nat
  videoCount : Nat
  deriving DecidableEq, Repr

/-- The options object of `batchPublishThemeVideos`; `none` models an
absent optional field.  `scheduledAt` is omitted: it is forwarded
opaquely and never inspected. -/
structure PublishOptions where
  accountIds : List Nat
  videoPaths : List String
  autoArchive : Option Bool
  title : Option String
  tags : Option (List String)
  deriving DecidableEq, Repr

/-- The title of one task: `options.title || path.parse(video.name).name`
(JavaScript `||`, so an empty supplied title also falls back). -/
def taskTitle (opts : PublishOptions) (videoName : String) : String :=
  match opts.title with
  | none => parseName videoName
  | some t => if t = "" then parseName videoName else t

/-- The tags string of one task: `options.tags?.join(',') || ''`. -/
def taskTags (opts : PublishOptions) : String :=
  match opts.tags with
  | none => ""
  | some l => String.intercalate "," l

/-- The nested `for accountId … for video …` task-creation loop
(`theme.service.ts:277-301`), with the sink state threaded through. -/
def publishLoop {τ : Type} (sink : TaskSink τ) (opts : PublishOptions)
    (autoArchive : Bool) (videosToPublish : List VideoEntry) :
    List PublishedTask × τ → List Nat → List PublishedTask × τ
  | acc, [] => acc
  | acc, accountId :: restAccounts =>
    let acc2 := videosToPublish.foldl (fun (acc : List PublishedTask × τ) video =>
      let title := taskTitle opts video.name
      let (taskId, t2) := sink.createTask acc.2
        { platformId := accountId
          libraryId := video.libraryId
          resourcePath := video.fullPath
          title := title
          tags := taskTags opts }
      (acc.1 ++ [{ taskId := taskId
                   accountId := accountId
                   videoName := video.name
                   videoPath := video.fullPath
                   libraryId := video.libraryId
                   autoArchive := autoArchive }], t2)) acc
    publishLoop sink opts autoArchive videosToPublish acc2 restAccounts

/-- `ThemeService.batchPublishThemeVideos`: validate, resolve the
inventory, match requested paths regardless of publish status, then
create one task per `(accountId, video)` pair of the Cartesian
product. -/
def batchPublishThemeVideos {σ τ : Type} (w : World σ) (sink : TaskSink τ)
    (s : σ) (t : τ) (themeId : Nat) (opts : PublishOptions) :
    Except String (PublishReport × τ) :=
  match w.themes themeId with
  | none => .error "主题库不存在"
  | some _ =>
    if opts.accountIds.isEmpty then .error "没有指定账号"
    else if opts.videoPaths.isEmpty then .error "没有指定视频"
    else
      match getThemeVideos w s themeId with
      | .error e => .error e
      | .ok allVideos =>
        let videosToPublish := allVideos.filter (fun video =>
          opts.videoPaths.contains video.fullPath)
        if videosToPublish.isEmpty then .error "没有找到匹配的视频"
        else
          let autoArchive := opts.autoArchive != some false
          let (tasks, t') :=
            publishLoop sink opts autoArchive videosToPublish ([], t) opts.accountIds
          .ok ({ tasks := tasks
                 totalTasks := tasks.length
                 accountCount := opts.accountIds.length
                 videoCount := videosToPublish.length }, t')

/-! ## In-memory filesystem model and the two concrete backends

`MFS` models the storage a backend operates on: the set of directory
paths and the set of file paths (absolute, normalized).  The root `/`
always exists.  JavaScript exceptions carry an optional Node `errno`
code and an optional HTTP response status (`error.response.status` of
the WebDAV client); both catch clauses of the providers branch on
exactly these fields. -/

structure MFS where
  dirs : List String
  files : List String
  deriving DecidableEq, Repr

/-- A JavaScript error value as the providers inspect it. -/
structure JsError where
  message : String
  code : Option String := none
  status : Option Nat := none
  deriving DecidableEq, Repr

/-- Path existence (`fs.access` / WebDAV `stat` succeeding). -/
def fsExistsB (fs : MFS) (p : String) : Bool :=
  p == "/" || fs.dirs.contains p || fs.files.contains p

/-- Directory existence (successful `fs.readdir` / `getDirectoryContents`). -/
def fsIsDir (fs : MFS) (p : String) : Bool :=
  p == "/" || fs.dirs.contains p

/-- The chain of a path and its ancestors, stopping at `/`, `.` or the
empty path (fuel-driven: `dirname` never grows a path by more than the
`"a" ↦ "."` step, which the guard then stops). -/
def parentChain : Nat → String → List String
  | 0, _ => []
  | n + 1, p =>
    if p = "/" || p = "." || p = "" then []
    else p :: parentChain n (dirname p)

/-- `mkdir -p` / recursive directory creation: fails when a file blocks
the path, otherwise records the directory and all its ancestors. -/
def mkdirP (fs : MFS) (p : String) : Except JsError MFS :=
  let chain := parentChain (p.data.length + 2) p
  if chain.any (fun q => fs.files.contains q) then
    .error { message := "EEXIST: file exists", code := some "EEXIST" }
  else
    .ok { fs with
          dirs := chain.foldl (fun ds q => if ds.contains q then ds else q :: ds) fs.dirs }

/-- The effect of `fs.rename` / WebDAV `MOVE`: the entry at `src` (and,
for a directory, everything below it) is relocated to `dst`. -/
def renameFS (fs : MFS) (src dst : String) : MFS :=
  let reloc := fun (q : String) =>
    if q = src then dst
    else if charStartsWith q (src ++ "/") then ⟨dst.data ++ q.data.drop src.data.length⟩
    else q
  { dirs := fs.dirs.map reloc, files := fs.files.map reloc }

/-- Removal of the entry at `p` and everything below it (the implicit
overwrite of WebDAV `moveFile`). -/
def removeFS (fs : MFS) (p : String) : MFS :=
  let keep := fun (q : String) => !(q == p) && !(charStartsWith q (p ++ "/"))
  { dirs := fs.dirs.filter keep, files := fs.files.filter keep }

/-- `fs.readdir(d, {withFileTypes: true})`: the direct children of `d`
as `(name, isDirectory)` pairs, failing with `ENOENT` when `d` is not a
directory of the model. -/
def readdirM (fs : MFS) (d : String) : Except JsError (List (String × Bool)) :=
  if fsIsDir fs d then
    .ok ((fs.dirs.filter (fun q => dirname q == d)).map (fun q => (basename q, true)) ++
         (fs.files.filter (fun q => dirname q == d)).map (fun q => (basename q, false)))
  else
    .error { message := "ENOENT: no such file or directory", code := some "ENOENT" }

/-! ## BaseResourceLibrary helpers (src/resources/base.resource.ts) -/

def videoExts : List String :=
  [".mp4", ".avi", ".mov", ".mkv", ".flv", ".wmv", ".webm", ".m4v", ".mpg", ".mpeg"]

def imageExts : List String :=
  [".jpg", ".jpeg", ".png", ".gif", ".bmp", ".webp", ".svg", ".ico"]

def audioExts : List String :=
  [".mp3", ".wav", ".flac", ".aac", ".ogg", ".wma", ".m4a"]

/-- `BaseResourceLibrary.getResourceType`: classify by lower-cased
extension, defaulting to `'folder'`. -/
def getResourceType (filePath : String) : String :=
  let ext := strToLower (extname filePath)
  if videoExts.contains ext then "video"
  else if imageExts.contains ext then "image"
  else if audioExts.contains ext then "audio"
  else "folder"

/-- Name comparison of `sortResources`; the source's
locale-dependent `localeCompare` is modelled as code-point order. -/
def charListLe : List Char → List Char → Bool
  | [], _ => true
  | _ :: _, [] => false
  | a :: as, b :: bs => if a = b then charListLe as bs else decide (a < b)

def insertLe {α : Type} (le : α → α → Bool) (a : α) : List α → List α
  | [] => [a]
  | b :: bs => if le a b then a :: b :: bs else b :: insertLe le a bs

/-- A stable sort (JavaScript `Array.prototype.sort` is stable). -/
def insertionSort {α : Type} (le : α → α → Bool) : List α → List α
  | [] => []
  | a :: as => insertLe le a (insertionSort le as)

/-- `BaseResourceLibrary.sortResources` with the default `name`/`asc`
arguments the providers pass: sort by name, then folders first. -/
def sortResources (resources : List ResourceInfo) : List ResourceInfo :=
  let sorted := insertionSort (fun a b => charListLe a.name.data b.name.data) resources
  sorted.filter (fun r => r.rtype == "folder") ++
    sorted.filter (fun r => r.rtype != "folder")

/-! ## LocalResourceLibrary (src/resources/providers/local.resource.ts) -/

/-- The configuration of a local library; `allowedExtensions` is the
optional extension filter of `list`. -/
structure LocalCfg where
  basePath : String
  allowedExtensions : Option (List String)
  deriving DecidableEq, Repr

/-- The extension filter of `LocalResourceLibrary.list` (lines 56-61):
an item is skipped iff the filter is configured, non-empty and does not
contain the lower-cased extension. -/
def allowedExtOk (cfg : LocalCfg) (ext : String) : Bool :=
  match cfg.allowedExtensions with
  | none => true
  | some exts => exts.isEmpty || exts.contains (strToLower ext)

/-- The body of the per-item loop of `LocalResourceLibrary.list`: skip
hidden entries, emit a folder entry for a directory, and for a file emit
a typed entry unless the extension filter or the media-type check
(`resourceType !== 'folder'`) rejects it.  Each iteration contributes
zero or one entries. -/
def localItemEntries (cfg : LocalCfg) (dirPath : String) (item : String × Bool) :
    List ResourceInfo :=
  if charStartsWith item.1 "." then []
  else
    let itemPath := pathJoin dirPath item.1
    if item.2 then [{ name := item.1, path := itemPath, rtype := "folder" }]
    else
      let ext := extname item.1
      if !(allowedExtOk cfg ext) then []
      else
        let resourceType := getResourceType item.1
        if resourceType != "folder" then
          [{ name := item.1, path := itemPath, rtype := resourceType }]
        else []

/-- The `try` block of `LocalResourceLibrary.list` (lines 32-81). -/
def localListCore (cfg : LocalCfg) (fs : MFS) (dirPath : String) :
    Except JsError (List ResourceInfo) :=
  let fullPath := pathJoin cfg.basePath dirPath
  match readdirM fs fullPath with
  | .error e => .error e
  | .ok items =>
    let resources := items.foldl (fun acc item => acc ++ localItemEntries cfg dirPath item) []
    .ok (sortResources resources)

/-- `LocalResourceLibrary.list`: the whole body is wrapped in
`try { … } catch { return [] }`. -/
def localList (cfg : LocalCfg) (fs : MFS) (dirPath : String) : List ResourceInfo :=
  match localListCore cfg fs dirPath with
  | .ok r => r
  | .error _ => []

/-- `LocalResourceLibrary.getInfo` (lines 124-146): a bare `fs.stat`,
so it throws when the path is absent. -/
def localGetInfo (cfg : LocalCfg) (fs : MFS) (filePath : String) :
    Except JsError ResourceInfo :=
  let fullPath := pathJoin cfg.basePath filePath
  if fsIsDir fs fullPath then
    .ok { name := basename filePath, path := filePath, rtype := "folder" }
  else if fs.files.contains fullPath then
    .ok { name := basename filePath, path := filePath,
          rtype := getResourceType (basename filePath) }
  else
    .error { message := "ENOENT: no such file or directory", code := some "ENOENT" }

/-- `LocalResourceLibrary.createFolder` (lines 192-202):
`fs.mkdir(fullPath, {recursive: true})`, rethrown as a fresh error on
failure. -/
def localCreateFolder (cfg : LocalCfg) (fs : MFS) (folderPath : String) :
    Except JsError MFS :=
  let fullPath := pathJoin cfg.basePath folderPath
  match mkdirP fs fullPath with
  | .ok fs1 => .ok fs1
  | .error _ => .error { message := "创建文件夹失败: " ++ folderPath }

/-- `LocalResourceLibrary.move` (lines 268-297): check the source with
`fs.access`; probe the target with `fs.access` and throw
`目标路径已存在` when it resolves, the catch rethrowing every error whose
`code` is not `ENOENT` (so the handcrafted error escapes); then create
the target's directory recursively and `fs.rename`. -/
def localMove (cfg : LocalCfg) (fs : MFS) (sourcePath targetPath : String) :
    Except JsError MFS :=
  let fullSourcePath := pathJoin cfg.basePath sourcePath
  let fullTargetPath := pathJoin cfg.basePath targetPath
  if !(fsExistsB fs fullSourcePath) then
    .error { message := "ENOENT: no such file or directory", code := some "ENOENT" }
  else
    let targetCheck : Except JsError Unit :=
      if fsExistsB fs fullTargetPath then
        .error { message := "目标路径已存在: " ++ targetPath }
      else
        .error { message := "ENOENT: no such file or directory", code := some "ENOENT" }
    let guarded : Except JsError Unit :=
      match targetCheck with
      | .ok u => .ok u
      | .error e => if e.code ≠ some "ENOENT" then .error e else .ok ()
    match guarded with
    | .error e => .error e
    | .ok _ =>
      let targetDir := dirname fullTargetPath
      match mkdirP fs targetDir with
      | .error e => .error e
      | .ok fs1 => .ok (renameFS fs1 fullSourcePath fullTargetPath)

/-! ## WebDAVResourceLibrary (src/resources/providers/webdav.resource.ts) -/

/-- `WebDAVResourceLibrary.normalizePath`: backslashes to slashes,
ensure a leading slash, collapse duplicate slashes. -/
def collapseSlashes (l : List Char) : List Char :=
  l.foldr (fun c acc =>
    if c = '/' then
      match acc with
      | '/' :: _ => acc
      | _ => c :: acc
    else c :: acc) []

def normalizePathW (filePath : String) : String :=
  let noBack := filePath.data.map (fun c => if c = '\\' then '/' else c)
  let led := match noBack with
    | '/' :: _ => noBack
    | _ => '/' :: noBack
  ⟨collapseSlashes led⟩

/-- WebDAV `client.stat`: fails with an HTTP 404 response error when the
path is absent. -/
def davStat (fs : MFS) (p : String) : Except JsError Unit :=
  if fsExistsB fs p then .ok ()
  else .error { message := "Not Found", status := some 404 }

/-- The per-item body of `WebDAVResourceLibrary.list`: skip hidden and
dot entries, then as for the local backend (there is no extension
filter; the ffprobe metadata probe does not affect which entries are
emitted). -/
def davItemEntries (dirPath : String) (item : String × Bool) : List ResourceInfo :=
  if charStartsWith item.1 "." then []
  else if item.1 == "." || item.1 == ".." then []
  else
    let itemPath := pathJoin dirPath item.1
    if item.2 then [{ name := item.1, path := itemPath, rtype := "folder" }]
    else
      let resourceType := getResourceType item.1
      if resourceType != "folder" then
        [{ name := item.1, path := itemPath, rtype := resourceType }]
      else []

/-- WebDAV `client.getDirectoryContents`: 404 when the path is not a
directory of the model. -/
def davDirContents (fs : MFS) (d : String) : Except JsError (List (String × Bool)) :=
  if fsIsDir fs d then
    .ok ((fs.dirs.filter (fun q => dirname q == d)).map (fun q => (basename q, true)) ++
         (fs.files.filter (fun q => dirname q == d)).map (fun q => (basename q, false)))
  else
    .error { message := "Not Found", status := some 404 }

/-- The `try` block of `WebDAVResourceLibrary.list` (lines 46-107). -/
def davListCore (basePath : String) (fs : MFS) (dirPath : String) :
    Except JsError (List ResourceInfo) :=
  let fullPath := normalizePathW (pathJoin basePath dirPath)
  match davDirContents fs fullPath with
  | .error e => .error e
  | .ok items =>
    let resources := items.foldl (fun acc item => acc ++ davItemEntries dirPath item) []
    .ok (sortResources resources)

/-- `WebDAVResourceLibrary.list`: wrapped in
`try { … } catch { return [] }`. -/
def davList (basePath : String) (fs : MFS) (dirPath : String) : List ResourceInfo :=
  match davListCore basePath fs dirPath with
  | .ok r => r
  | .error _ => []

/-- `WebDAVResourceLibrary.move` (lines 328-361): stat the source; stat
the target and throw `目标路径已存在` when it resolves — but the catch
rethrows only errors with `error.response && error.response.status !==
404`, and the handcrafted `Error` has no `response`, so it is
swallowed and the move proceeds; then ensure the target directory and
`client.moveFile` (which overwrites). -/
def davMove (basePath : String) (fs : MFS) (sourcePath targetPath : String) :
    Except JsError MFS :=
  let fullSourcePath := normalizePathW (pathJoin basePath sourcePath)
  let fullTargetPath := normalizePathW (pathJoin basePath targetPath)
  match davStat fs fullSourcePath with
  | .error e => .error e
  | .ok _ =>
    let targetCheck : Except JsError Unit :=
      match davStat fs fullTargetPath with
      | .ok _ => .error { message := "目标路径已存在: " ++ targetPath }
      | .error e => .error e
    let guarded : Except JsError Unit :=
      match targetCheck with
      | .ok u => .ok u
      | .error e =>
        if e.status.isSome && e.status ≠ some 404 then .error e else .ok ()
    match guarded with
    | .error e => .error e
    | .ok _ =>
      let targetDir := normalizePathW (dirname fullTargetPath)
      let ensured : Except JsError MFS :=
        match davStat fs targetDir with
        | .ok _ => .ok fs
        | .error _ => mkdirP fs targetDir
      match ensured with
      | .error e => .error e
      | .ok fs1 =>
        .ok (renameFS (removeFS fs1 fullTargetPath) fullSourcePath fullTargetPath)

/-! ## The store over the local backend

`ResourceService.browseLibrary(libraryId, path, {type})` resolves the
library instance, lists, and filters by the requested type
(`resource.service.ts:113-129`; no sort options are passed by the theme
service).  The worlds used below wire every library id to one local
backend instance. -/

/-- `browseLibrary` over a local backend with a `type` filter. -/
def localBrowse (cfg : LocalCfg) (fs : MFS) (p : String) (t : String) :
    List ResourceInfo :=
  (localList cfg fs p).filter (fun r => r.rtype == t)

/-- The `Store` realized by a `LocalResourceLibrary`; `JsError`s surface
as their `message` strings, as with JavaScript `error.message`. -/
def localStore (cfg : LocalCfg) : Store MFS where
  getLib := fun _ _ => .ok ()
  browse := fun s _ p => .ok (localBrowse cfg s p "video")
  getInfo := fun s _ p =>
    match localGetInfo cfg s p with
    | .ok info => .ok info.rtype
    | .error e => .error e.message
  createFolder := fun s _ p =>
    match localCreateFolder cfg s p with
    | .ok s2 => .ok s2
    | .error e => .error e.message
  move := fun s _ src tgt =>
    match localMove cfg s src tgt with
    | .ok s2 => .ok s2
    | .error e => .error e.message

/-- The local configuration used by the concrete scenarios: base path
`''` (so library paths are absolute model paths) and no extension
filter. -/
def plainCfg : LocalCfg := { basePath := "", allowedExtensions := none }

/-- A world with a single theme under id 1 over the plain local store. -/
def localWorld (theme : Theme) : World MFS where
  themes := fun i => if i = 1 then some theme else none
  store := localStore plainCfg

/-! ## List lemmas -/

theorem takeWhile_all {α : Type} (p : α → Bool) (l : List α)
    (h : ∀ a ∈ l, p a = true) : l.takeWhile p = l := by
  induction l with
  | nil => rfl
  | cons a as ih =>
    simp only [List.takeWhile_cons, h a (by simp), if_true]
    rw [ih (fun b hb => h b (by simp [hb]))]

theorem dropWhile_all {α : Type} (p : α → Bool) (l l2 : List α)
    (h : ∀ a ∈ l, p a = true) : (l ++ l2).dropWhile p = l2.dropWhile p := by
  induction l with
  | nil => rfl
  | cons a as ih =>
    simp only [List.cons_append, List.dropWhile_cons, h a (by simp)]
    exact ih (fun b hb => h b (by simp [hb]))

theorem takeWhile_append_all {α : Type} (p : α → Bool) (l l2 : List α)
    (h : ∀ a ∈ l, p a = true) : (l ++ l2).takeWhile p = l ++ l2.takeWhile p := by
  induction l with
  | nil => rfl
  | cons a as ih =>
    simp only [List.cons_append, List.takeWhile_cons, h a (by simp), if_true]
    rw [ih (fun b hb => h b (by simp [hb]))]

theorem isPrefixOf_ex (l1 l2 : List Char) :
    l1.isPrefixOf l2 = true ↔ ∃ t, l2 = l1 ++ t := by
  induction l1 generalizing l2 with
  | nil => simp [List.isPrefixOf]
  | cons a as ih =>
    cases l2 with
    | nil => simp [List.isPrefixOf]
    | cons b bs =>
      simp only [List.isPrefixOf, Bool.and_eq_true, beq_iff_eq, ih]
      constructor
      · rintro ⟨rfl, t, rfl⟩; exact ⟨t, rfl⟩
      · rintro ⟨t, ht⟩
        injection ht with h1 h2
        exact ⟨h1.symm, t, h2⟩

theorem isSuffixOf_ex (l1 l2 : List Char) :
    l1.isSuffixOf l2 = true ↔ ∃ t, l2 = t ++ l1 := by
  unfold List.isSuffixOf
  rw [isPrefixOf_ex]
  constructor
  · rintro ⟨t, ht⟩
    refine ⟨t.reverse, ?_⟩
    have := congrArg List.reverse ht
    simpa using this
  · rintro ⟨t, rfl⟩
    exact ⟨t.reverse, by simp⟩

theorem foldl_append_join {α β : Type} (g : α → List β) (l : List α) (init : List β) :
    l.foldl (fun acc x => acc ++ g x) init = init ++ (l.map g).flatten := by
  induction l generalizing init with
  | nil => simp
  | cons a as ih => simp [List.foldl_cons, ih]

theorem mem_insertLe {α : Type} (le : α → α → Bool) (a x : α) (l : List α) :
    x ∈ insertLe le a l ↔ x = a ∨ x ∈ l := by
  induction l with
  | nil => simp [insertLe]
  | cons b bs ih =>
    simp only [insertLe]
    by_cases h : le a b = true
    · simp [h]
    · simp only [h, Bool.false_eq_true, if_false, List.mem_cons, ih]
      tauto

theorem mem_insertionSort {α : Type} (le : α → α → Bool) (x : α) (l : List α) :
    x ∈ insertionSort le l ↔ x ∈ l := by
  induction l with
  | nil => simp [insertionSort]
  | cons a as ih => simp [insertionSort, mem_insertLe, ih]

theorem mem_sortResources (x : ResourceInfo) (l : List ResourceInfo) :
    x ∈ sortResources l ↔ x ∈ l := by
  unfold sortResources
  simp only [List.mem_append, List.mem_filter]
  rw [← and_or_left]
  constructor
  · rintro ⟨hx, -⟩; exact (mem_insertionSort _ _ _).1 hx
  · intro hx
    refine ⟨(mem_insertionSort _ _ _).2 hx, ?_⟩
    by_cases h : x.rtype = "folder" <;> simp [h]

/-! ## Path lemmas -/

theorem strMk_append (l m : List Char) : (⟨l⟩ : String) ++ ⟨m⟩ = ⟨l ++ m⟩ := rfl

/-- The basename of a path whose last slash splits it as `l1 ++ '/' :: l2`
with `l2` slash-free. -/
theorem basename_mk (l1 l2 : List Char) (h : ∀ c ∈ l2, c ≠ '/') :
    basename ⟨l1 ++ '/' :: l2⟩ = ⟨l2⟩ := by
  unfold basename
  have hrev : (l1 ++ '/' :: l2).reverse = l2.reverse ++ '/' :: l1.reverse := by
    simp
  rw [show ((⟨l1 ++ '/' :: l2⟩ : String).data) = l1 ++ '/' :: l2 from rfl, hrev]
  rw [takeWhile_append_all _ _ _ (by
    intro c hc
    simp only [List.mem_reverse] at hc
    simp [h c hc])]
  simp [List.takeWhile_cons]

theorem dirname_mk (l1 l2 : List Char) (h1 : l1 ≠ []) (h : ∀ c ∈ l2, c ≠ '/') :
    dirname ⟨l1 ++ '/' :: l2⟩ = ⟨l1⟩ := by
  unfold dirname
  have hrev : (l1 ++ '/' :: l2).reverse = l2.reverse ++ '/' :: l1.reverse := by
    simp
  rw [show ((⟨l1 ++ '/' :: l2⟩ : String).data) = l1 ++ '/' :: l2 from rfl, hrev]
  rw [dropWhile_all _ _ _ (by
    intro c hc
    simp only [List.mem_reverse] at hc
    simp [h c hc])]
  rw [List.dropWhile_cons]
  simp only [bne_self_eq_false, Bool.false_eq_true, if_false]
  cases hrev1 : l1.reverse with
  | nil => exact absurd (by simpa using congrArg List.reverse hrev1) h1
  | cons c rest =>
    show dirnameAux ('/' :: c :: rest) = _
    show (⟨(c :: rest).reverse⟩ : String) = _
    rw [← hrev1]
    simp

theorem dirname_mk_root (l2 : List Char) (h : ∀ c ∈ l2, c ≠ '/') :
    dirname ⟨'/' :: l2⟩ = "/" := by
  unfold dirname
  rw [show ((⟨'/' :: l2⟩ : String).data) = '/' :: l2 from rfl]
  rw [show ('/' :: l2).reverse = l2.reverse ++ ['/'] from by simp]
  rw [dropWhile_all _ _ _ (by
    intro c hc
    simp only [List.mem_reverse] at hc
    simp [h c hc])]
  rfl

theorem basename_slashFree (n : String) (h : ∀ c ∈ n.data, c ≠ '/') :
    basename n = n := by
  unfold basename
  rw [takeWhile_all _ _ (by
    intro c hc
    simp only [List.mem_reverse] at hc
    simp [h c hc])]
  simp [strMk_data]

theorem dirname_slashFree (n : String) (h : ∀ c ∈ n.data, c ≠ '/') :
    dirname n = "." := by
  unfold dirname
  have hnil : n.data.reverse.dropWhile (fun c => c != '/') = [] := by
    rw [List.dropWhile_eq_nil_iff]
    intro c hc
    simp only [List.mem_reverse] at hc
    simp [h c hc]
  rw [hnil]
  rfl

theorem charEndsWith_append (y n : String) : charEndsWith (y ++ n) n = true := by
  unfold charEndsWith
  rw [isSuffixOf_ex]
  exact ⟨y.data, strData_append y n⟩

theorem charEndsWith_ex {s t : String} (h : charEndsWith s t = true) :
    ∃ u : List Char, s = ⟨u ++ t.data⟩ := by
  unfold charEndsWith at h
  rw [isSuffixOf_ex] at h
  obtain ⟨u, hu⟩ := h
  exact ⟨u, by rw [← hu, strMk_data]⟩

theorem charStartsWith_ex {s t : String} (h : charStartsWith s t = true) :
    ∃ u : List Char, s.data = t.data ++ u := by
  unfold charStartsWith at h
  rw [isPrefixOf_ex] at h
  exact h

theorem pathJoin_empty_left (b : String) : pathJoin "" b = b := by
  simp [pathJoin]

theorem pathJoin_eq {a b : String} (ha : a ≠ "") (hb : b ≠ "")
    (hs : charEndsWith a "/" = false) : pathJoin a b = a ++ "/" ++ b := by
  simp [pathJoin, ha, hb, hs]

/-- The normal form of a join at list level: some head ending in a
slash (or empty), followed by the second segment. -/
theorem pathJoin_split {a b : String} (hb : b ≠ "") :
    pathJoin a b = b ∨ ∃ y : List Char, pathJoin a b = ⟨(y ++ ['/']) ++ b.data⟩ := by
  unfold pathJoin
  by_cases ha : a = ""
  · left; simp [ha]
  · right
    simp only [ha, hb, if_false]
    by_cases hs : charEndsWith a "/" = true
    · obtain ⟨u, hu⟩ := charEndsWith_ex hs
      refine ⟨u, ?_⟩
      simp only [hs, if_true]
      rw [show (("/" : String)).data = ['/'] from rfl] at hu
      rw [hu]
      cases b with
      | mk bl => rw [strMk_append]
    · simp only [hs, Bool.false_eq_true, if_false]
      refine ⟨a.data, ?_⟩
      cases a with
      | mk al =>
        cases b with
        | mk bl => rfl

theorem basename_pathJoin {a b : String} (hb : b ≠ "")
    (hbs : ∀ c ∈ b.data, c ≠ '/') : basename (pathJoin a b) = b := by
  rcases pathJoin_split (a := a) hb with h | ⟨y, h⟩
  · rw [h, basename_slashFree b hbs]
  · rw [h, show (y ++ ['/']) ++ b.data = y ++ '/' :: b.data from by simp]
    rw [basename_mk _ _ hbs, strMk_data]

theorem charEndsWith_pathJoin (a b : String) (hb : b ≠ "") :
    charEndsWith (pathJoin a b) b = true := by
  rcases pathJoin_split (a := a) hb with h | ⟨y, h⟩
  · rw [h]
    have := charEndsWith_append "" b
    simpa using this
  · rw [h]
    have : (⟨(y ++ ['/']) ++ b.data⟩ : String) = ⟨y ++ ['/']⟩ ++ b := by
      rw [strMk_append]
    rw [this]
    exact charEndsWith_append _ _

theorem dirname_pathJoin {a b : String} (ha : a ≠ "") (hb : b ≠ "")
    (hs : charEndsWith a "/" = false) (hbs : ∀ c ∈ b.data, c ≠ '/') :
    dirname (pathJoin a b) = a := by
  rw [pathJoin_eq ha hb hs]
  have : a ++ "/" ++ b = ⟨a.data ++ '/' :: b.data⟩ := by
    cases a with
    | mk al =>
      cases b with
      | mk bl =>
        rw [strMk_append, strMk_append]
        simp
  rw [this, dirname_mk _ _ (by simpa [← strEmpty_iff] using ha) hbs, strMk_data]

theorem dirname_concat {x n : String} (hx : x ≠ "") (hn : ∀ c ∈ n.data, c ≠ '/') :
    dirname (x ++ "/" ++ n) = x := by
  have : x ++ "/" ++ n = ⟨x.data ++ '/' :: n.data⟩ := by
    cases x with
    | mk xl =>
      cases n with
      | mk nl =>
        rw [strMk_append, strMk_append]
        simp
  rw [this, dirname_mk _ _ (by simpa [← strEmpty_iff] using hx) hn, strMk_data]

theorem basename_concat {x n : String} (hn : ∀ c ∈ n.data, c ≠ '/') :
    basename (x ++ "/" ++ n) = n := by
  have : x ++ "/" ++ n = ⟨x.data ++ '/' :: n.data⟩ := by
    cases x with
    | mk xl =>
      cases n with
      | mk nl =>
        rw [strMk_append, strMk_append]
        simp
  rw [this, basename_mk _ _ hn, strMk_data]

/-- Well-formed decomposition: a path whose dirname is neither `"."`
nor `"/"` is its dirname, a slash, and its basename. -/
theorem dirname_basename_decomp (p : String) (h1 : dirname p ≠ ".")
    (h2 : dirname p ≠ "/") : dirname p ++ "/" ++ basename p = p := by
  have hsplit := List.takeWhile_append_dropWhile
    (p := fun c => c != '/') (l := p.data.reverse)
  unfold dirname at h1 h2 ⊢
  unfold basename
  cases hD : p.data.reverse.dropWhile (fun c => c != '/') with
  | nil => exact absurd rfl (by rw [hD] at h1; exact h1)
  | cons c rest =>
    have hc : c = '/' := by
      have := List.head?_dropWhile_not (p := fun c => c != '/') (l := p.data.reverse)
      rw [hD] at this
      simpa using this
    subst hc
    cases hrest : rest with
    | nil =>
      rw [hrest] at hD
      exact absurd rfl (by rw [hD] at h2; exact h2)
    | cons c2 rest2 =>
      rw [hrest] at hD
      rw [hD] at hsplit
      have hp : p.data = (c2 :: rest2).reverse ++
          '/' :: (p.data.reverse.takeWhile (fun c => c != '/')).reverse := by
        have := congrArg List.reverse hsplit
        simpa using this.symm
      show dirnameAux ('/' :: c2 :: rest2) ++ "/" ++ _ = p
      show (⟨(c2 :: rest2).reverse⟩ : String) ++ "/" ++ _ = p
      have heq : (⟨(c2 :: rest2).reverse⟩ : String) ++ "/" ++
          (⟨(p.data.reverse.takeWhile (fun c => c != '/')).reverse⟩ : String) =
          ⟨(c2 :: rest2).reverse ++ '/' :: (p.data.reverse.takeWhile (fun c => c != '/')).reverse⟩ := by
        rw [show ("/" : String) = ⟨['/']⟩ from rfl, strMk_append, strMk_append]
        simp
      rw [heq, ← hp, strMk_data]

/-! ## Length lemmas -/

theorem ne_of_data_length {s t : String} (h : s.data.length ≠ t.data.length) :
    s ≠ t := fun he => h (by rw [he])

theorem basename_slash_free (p : String) : ∀ c ∈ (basename p).data, c ≠ '/' := by
  intro c hc
  unfold basename at hc
  simp only [List.mem_reverse] at hc
  have := List.mem_takeWhile_imp hc
  simpa using this

theorem pathJoin_len_lt_left {a b : String} (hb : b ≠ "") :
    a.data.length < (pathJoin a b).data.length := by
  have hbl : 0 < b.data.length := by
    cases hb2 : b.data with
    | nil => exact absurd ((strEmpty_iff b).2 hb2) hb
    | cons x xs => simp
  by_cases ha : a = ""
  · rw [ha, pathJoin_empty_left]
    exact hbl
  · unfold pathJoin
    rw [if_neg ha, if_neg hb]
    by_cases hs : charEndsWith a "/" = true
    · rw [if_pos hs]
      simp only [strData_append, List.length_append]
      omega
    · rw [if_neg hs]
      simp only [strData_append, List.length_append]
      have h1 : (("/" : String)).data.length = 1 := rfl
      omega

theorem pathJoin_len_lt_right {a b : String} (ha : a ≠ "") :
    b.data.length < (pathJoin a b).data.length := by
  have hal : 0 < a.data.length := by
    cases ha2 : a.data with
    | nil => exact absurd ((strEmpty_iff a).2 ha2) ha
    | cons x xs => simp
  unfold pathJoin
  rw [if_neg ha]
  by_cases hb : b = ""
  · rw [if_pos hb, hb]
    exact hal
  · rw [if_neg hb]
    by_cases hs : charEndsWith a "/" = true
    · rw [if_pos hs]
      simp only [strData_append, List.length_append]
      omega
    · rw [if_neg hs]
      simp only [strData_append, List.length_append]
      have h1 : (("/" : String)).data.length = 1 := rfl
      omega

theorem dropWhile_len_ge {p : Char → Bool} {c : Char} (l1 l2 : List Char)
    (hc : p c = false) :
    l2.length + 1 ≤ ((l1 ++ c :: l2).dropWhile p).length := by
  induction l1 with
  | nil =>
    simp [List.dropWhile_cons, hc]
  | cons a as ih =>
    rw [List.cons_append, List.dropWhile_cons]
    by_cases hp : p a = true
    · simpa [hp] using ih
    · simp only [hp, Bool.false_eq_true, if_false]
      simp only [List.length_cons, List.length_append, List.length_cons]
      omega

/-- If `q` lies strictly inside the directory `t` (it extends `t ++ "/"`)
then its dirname is at least as long as `t`. -/
theorem dirname_len_ge {q t : String} (h : charStartsWith q (t ++ "/") = true) :
    t.data.length ≤ (dirname q).data.length := by
  obtain ⟨u, hu⟩ := charStartsWith_ex h
  rw [strData_append] at hu
  rw [show (("/" : String)).data = ['/'] from rfl] at hu
  have hq : q.data = t.data ++ '/' :: u := by simpa using hu
  have hqrev : q.data.reverse = u.reverse ++ '/' :: t.data.reverse := by
    rw [hq]; simp
  have hlen := dropWhile_len_ge (p := fun c => c != '/') (c := '/') u.reverse
    t.data.reverse (by simp)
  rw [← hqrev] at hlen
  unfold dirname
  cases hD : q.data.reverse.dropWhile (fun c => c != '/') with
  | nil => rw [hD] at hlen; simp at hlen
  | cons d rest =>
    rw [hD] at hlen
    simp only [List.length_cons, List.length_reverse] at hlen
    cases rest with
    | nil =>
      have ht0 : t.data.length = 0 := by
        simp only [List.length_cons, List.length_nil, List.length_reverse] at hlen
        omega
      rw [ht0]
      exact Nat.zero_le _
    | cons d2 rest2 =>
      show t.data.length ≤ (dirnameAux (d :: d2 :: rest2)).data.length
      have : (dirnameAux (d :: d2 :: rest2)).data.length = (d2 :: rest2).length := by
        show ((⟨(d2 :: rest2).reverse⟩ : String)).data.length = (d2 :: rest2).length
        simp
      rw [this]
      simp only [List.length_cons] at hlen ⊢
      omega

/-! ## Resolver decomposition (claim C8 machinery)

`rootContribution` is the inventory a single resource root contributes:
nothing when the main listing fails, otherwise the tagged main entries
followed by the tagged archive entries (empty when the archive listing
fails). -/

def mainTagged (rp : ResourceRoot) (rs : List ResourceInfo) : List VideoEntry :=
  (rs.filter (fun r => r.rtype == "video")).map (fun video =>
    { name := video.name
      libraryId := rp.libraryId
      libraryPath := rp.folderPath
      fullPath := rp.folderPath ++ "/" ++ video.name
      isPublished := false })

def archiveTagged (rp : ResourceRoot) (archivePath : String)
    (rs : List ResourceInfo) : List VideoEntry :=
  (rs.filter (fun r => r.rtype == "video")).map (fun video =>
    { name := video.name
      libraryId := rp.libraryId
      libraryPath := archivePath
      fullPath := archivePath ++ "/" ++ video.name
      isPublished := true })

def rootContribution {σ : Type} (S : Store σ) (s : σ) (afn : String)
    (rp : ResourceRoot) : List VideoEntry :=
  match S.browse s rp.libraryId rp.folderPath with
  | .error _ => []
  | .ok mainResources =>
    mainTagged rp mainResources ++
      (match S.browse s rp.libraryId (pathJoin rp.folderPath afn) with
       | .error _ => []
       | .ok archiveResources =>
         archiveTagged rp (pathJoin rp.folderPath afn) archiveResources)

/-- One resolver-loop iteration appends exactly the root's
contribution. -/
theorem resolveRootStep_eq {σ : Type} (S : Store σ) (s : σ) (afn : String)
    (acc : List VideoEntry) (rp : ResourceRoot) :
    resolveRootStep S s afn acc rp = acc ++ rootContribution S s afn rp := by
  unfold resolveRootStep rootContribution mainTagged archiveTagged
  cases h1 : S.browse s rp.libraryId rp.folderPath with
  | error e => simp [h1]
  | ok mainResources =>
    cases h2 : S.browse s rp.libraryId (pathJoin rp.folderPath afn) with
    | error e => simp [h1, h2]
    | ok archiveResources => simp [h1, h2]

theorem foldl_resolveRootStep {σ : Type} (S : Store σ) (s : σ) (afn : String)
    (roots : List ResourceRoot) (init : List VideoEntry) :
    roots.foldl (resolveRootStep S s afn) init =
      init ++ (roots.map (rootContribution S s afn)).flatten := by
  induction roots generalizing init with
  | nil => simp
  | cons rp rest ih =>
    rw [List.foldl_cons, ih, resolveRootStep_eq]
    simp

/-- The imperative accumulation of `getThemeVideos` equals the
concatenation of the per-root contributions, in root order. -/
theorem getThemeVideos_decomp {σ : Type} (w : World σ) (s : σ) (themeId : Nat)
    (theme : Theme) (hfound : w.themes themeId = some theme) :
    getThemeVideos w s themeId =
      .ok ((theme.resourceRoots.map
        (rootContribution w.store s (effArchiveFolderName theme))).flatten) := by
  unfold getThemeVideos
  simp only [hfound]
  rw [foldl_resolveRootStep]
  simp

/-! ## Batch-loop lemmas -/

theorem length_filter_add_length_filter_not {α : Type} (p : α → Bool) (l : List α) :
    (l.filter p).length + (l.filter (fun a => !(p a))).length = l.length := by
  induction l with
  | nil => rfl
  | cons a as ih =>
    by_cases h : p a = true
    · simp [List.filter_cons, h, ← ih]
      omega
    · simp only [Bool.not_eq_true] at h
      simp [List.filter_cons, h, ← ih]
      omega

theorem runBatchLoop_paths {σ : Type} (op : σ → VideoEntry → Except String σ)
    (s : σ) (l : List VideoEntry) :
    (runBatchLoop op s l).1.map (fun r => r.path) = l.map (fun v => v.fullPath) := by
  induction l generalizing s with
  | nil => rfl
  | cons v rest ih =>
    unfold runBatchLoop
    cases op s v with
    | ok s2 => simpa using ih s2
    | error e => simpa using ih s

theorem runBatchLoop_length {σ : Type} (op : σ → VideoEntry → Except String σ)
    (s : σ) (l : List VideoEntry) :
    (runBatchLoop op s l).1.length = l.length := by
  have := congrArg List.length (runBatchLoop_paths op s l)
  simpa using this

/-- When the success of one attempt depends only on the video (not on
the accumulated state), each result entry's flag is that of its own
video. -/
theorem runBatchLoop_flags {σ : Type} (op : σ → VideoEntry → Except String σ)
    (s : σ) (l : List VideoEntry) (good : String → Prop)
    (hok : ∀ st v, v ∈ l → good v.fullPath → ∃ s2, op st v = .ok s2)
    (hbad : ∀ st v, v ∈ l → ¬ good v.fullPath → ∃ e, op st v = .error e) :
    ∀ r ∈ (runBatchLoop op s l).1, (r.success = true ↔ good r.path) := by
  induction l generalizing s with
  | nil => intro r hr; cases hr
  | cons v rest ih =>
    intro r hr
    unfold runBatchLoop at hr
    by_cases hg : good v.fullPath
    · obtain ⟨s2, hs2⟩ := hok s v (by simp) hg
      rw [hs2] at hr
      simp only [List.mem_cons] at hr
      rcases hr with rfl | hr
      · simpa using hg
      · exact ih s2 (fun st u hu => hok st u (by simp [hu]))
          (fun st u hu => hbad st u (by simp [hu])) r (by
            revert hr
            cases hrest : runBatchLoop op s2 rest
            simp)
    · obtain ⟨e, he⟩ := hbad s v (by simp) hg
      rw [he] at hr
      simp only [List.mem_cons] at hr
      rcases hr with rfl | hr
      · simpa using hg
      · exact ih s (fun st u hu => hok st u (by simp [hu]))
          (fun st u hu => hbad st u (by simp [hu])) r (by
            revert hr
            cases hrest : runBatchLoop op s rest
            simp)

/-- When every attempt succeeds, the loop is the sequential composition
of the operations and every entry reports success. -/
theorem runBatchLoop_all_ok {σ : Type} (op : σ → VideoEntry → Except String σ)
    (s : σ) (l : List VideoEntry)
    (hok : ∀ st v, v ∈ l → ∃ s2, op st v = .ok s2) :
    ∀ r ∈ (runBatchLoop op s l).1, r.success = true := by
  induction l generalizing s with
  | nil => intro r hr; cases hr
  | cons v rest ih =>
    intro r hr
    unfold runBatchLoop at hr
    obtain ⟨s2, hs2⟩ := hok s v (by simp)
    rw [hs2] at hr
    simp only [List.mem_cons] at hr
    rcases hr with rfl | hr
    · rfl
    · exact ih s2 (fun st u hu => hok st u (by simp [hu])) r (by
        revert hr
        cases hrest : runBatchLoop op s2 rest
        simp)

/-! ## Inventory membership -/

/-- The inventory of a theme as the resolver computes it (the value of
`getThemeVideos` when the theme is found, by `getThemeVideos_decomp`). -/
def inventory {σ : Type} (S : Store σ) (s : σ) (theme : Theme) : List VideoEntry :=
  (theme.resourceRoots.map (rootContribution S s (effArchiveFolderName theme))).flatten

theorem getThemeVideos_eq_inventory {σ : Type} (w : World σ) (s : σ)
    (themeId : Nat) (theme : Theme) (hfound : w.themes themeId = some theme) :
    getThemeVideos w s themeId = .ok (inventory w.store s theme) :=
  getThemeVideos_decomp w s themeId theme hfound

/-- Forward analysis of one root's contribution: every entry is either
a main-folder entry (unpublished, path under the root) or an
archive-folder entry (published, path under the archive folder). -/
theorem mem_rootContribution {σ : Type} {S : Store σ} {s : σ} {afn : String}
    {rp : ResourceRoot} {v : VideoEntry} (hv : v ∈ rootContribution S s afn rp) :
    (∃ l r, S.browse s rp.libraryId rp.folderPath = .ok l ∧ r ∈ l ∧
      r.rtype = "video" ∧
      v = { name := r.name, libraryId := rp.libraryId, libraryPath := rp.folderPath,
            fullPath := rp.folderPath ++ "/" ++ r.name, isPublished := false }) ∨
    (∃ l r, S.browse s rp.libraryId (pathJoin rp.folderPath afn) = .ok l ∧ r ∈ l ∧
      r.rtype = "video" ∧
      v = { name := r.name, libraryId := rp.libraryId,
            libraryPath := pathJoin rp.folderPath afn,
            fullPath := pathJoin rp.folderPath afn ++ "/" ++ r.name,
            isPublished := true }) := by
  unfold rootContribution at hv
  cases h1 : S.browse s rp.libraryId rp.folderPath with
  | error e => rw [h1] at hv; cases hv
  | ok mainResources =>
    rw [h1] at hv
    simp only [List.mem_append] at hv
    rcases hv with hv | hv
    · left
      unfold mainTagged at hv
      simp only [List.mem_map, List.mem_filter] at hv
      obtain ⟨r, ⟨hrl, hrt⟩, hveq⟩ := hv
      exact ⟨mainResources, r, rfl, hrl, by simpa using hrt, hveq.symm⟩
    · right
      cases h2 : S.browse s rp.libraryId (pathJoin rp.folderPath afn) with
      | error e => rw [h2] at hv; cases hv
      | ok archiveResources =>
        rw [h2] at hv
        unfold archiveTagged at hv
        simp only [List.mem_map, List.mem_filter] at hv
        obtain ⟨r, ⟨hrl, hrt⟩, hveq⟩ := hv
        exact ⟨archiveResources, r, rfl, hrl, by simpa using hrt, hveq.symm⟩

theorem mem_rootContribution_main {σ : Type} {S : Store σ} {s : σ} (afn : String)
    {rp : ResourceRoot} {l : List ResourceInfo} {r : ResourceInfo}
    (hbrowse : S.browse s rp.libraryId rp.folderPath = .ok l)
    (hr : r ∈ l) (hrt : r.rtype = "video") :
    ({ name := r.name, libraryId := rp.libraryId, libraryPath := rp.folderPath,
       fullPath := rp.folderPath ++ "/" ++ r.name, isPublished := false } : VideoEntry) ∈
      rootContribution S s afn rp := by
  unfold rootContribution
  rw [hbrowse]
  simp only [List.mem_append]
  left
  unfold mainTagged
  simp only [List.mem_map, List.mem_filter]
  exact ⟨r, ⟨hr, by simp [hrt]⟩, rfl⟩

theorem mem_inventory_of_root {σ : Type} {S : Store σ} {s : σ} {theme : Theme}
    {rp : ResourceRoot} {v : VideoEntry} (hrp : rp ∈ theme.resourceRoots)
    (hv : v ∈ rootContribution S s (effArchiveFolderName theme) rp) :
    v ∈ inventory S s theme := by
  unfold inventory
  rw [List.mem_flatten]
  exact ⟨_, List.mem_map_of_mem _ hrp, hv⟩

theorem mem_inventory_elim {σ : Type} {S : Store σ} {s : σ} {theme : Theme}
    {v : VideoEntry} (hv : v ∈ inventory S s theme) :
    ∃ rp ∈ theme.resourceRoots,
      v ∈ rootContribution S s (effArchiveFolderName theme) rp := by
  unfold inventory at hv
  rw [List.mem_flatten] at hv
  obtain ⟨contrib, hc, hvc⟩ := hv
  rw [List.mem_map] at hc
  obtain ⟨rp, hrp, rfl⟩ := hc
  exact ⟨rp, hrp, hvc⟩

/-- The effective archive folder name is never empty. -/
theorem effArchiveFolderName_ne_empty (t : Theme) : effArchiveFolderName t ≠ "" := by
  unfold effArchiveFolderName
  cases t.archiveFolderName with
  | none => simp
  | some s =>
    by_cases h : s = "" <;> simp [h]

/-! ## Claim C8 — resolver concatenation order and archive-failure tolerance -/

/-- The full statement verified for claim C8 at a given world, state and
theme: (1) the resolver output is the concatenation, over the roots in
declaration order, of the tagged main-folder entries followed by the
tagged archive-folder entries of each root (nothing for a root whose
main listing fails); (2) a root whose archive listing fails contributes
exactly its main entries and zero published entries; (3) a root's
contribution depends only on that root's own two listings, so the
failure of one root cannot affect the others. -/
def C8Claim {σ : Type} (w : World σ) (s : σ) (themeId : Nat) (theme : Theme) : Prop :=
  (getThemeVideos w s themeId = .ok
    ((theme.resourceRoots.map (fun rp =>
      match w.store.browse s rp.libraryId rp.folderPath with
      | .error _ => []
      | .ok mainResources =>
        mainTagged rp mainResources ++
          (match w.store.browse s rp.libraryId
              (pathJoin rp.folderPath (effArchiveFolderName theme)) with
           | .error _ => []
           | .ok archiveResources =>
             archiveTagged rp (pathJoin rp.folderPath (effArchiveFolderName theme))
               archiveResources))).flatten)) ∧
  (∀ rp l e, w.store.browse s rp.libraryId rp.folderPath = .ok l →
    w.store.browse s rp.libraryId
      (pathJoin rp.folderPath (effArchiveFolderName theme)) = .error e →
    rootContribution w.store s (effArchiveFolderName theme) rp = mainTagged rp l ∧
    (rootContribution w.store s (effArchiveFolderName theme) rp).filter
      (fun v => v.isPublished) = []) ∧
  (∀ (S2 : Store σ) (s2 : σ) (rp : ResourceRoot),
    w.store.browse s rp.libraryId rp.folderPath =
      S2.browse s2 rp.libraryId rp.folderPath →
    w.store.browse s rp.libraryId
        (pathJoin rp.folderPath (effArchiveFolderName theme)) =
      S2.browse s2 rp.libraryId (pathJoin rp.folderPath (effArchiveFolderName theme)) →
    rootContribution w.store s (effArchiveFolderName theme) rp =
      rootContribution S2 s2 (effArchiveFolderName theme) rp)

/-- C8: the resolver concatenates, over resource roots in declaration
order, each root's main-folder entries followed by its archive-folder
entries; a failing archive listing yields zero published entries for
that root only, leaving its main entries and every other root
unaffected. -/
theorem claim_C8 {σ : Type} (w : World σ) (s : σ) (themeId : Nat) (theme : Theme)
    (hfound : w.themes themeId = some theme) : C8Claim w s themeId theme := by
  refine ⟨?_, ?_, ?_⟩
  · rw [getThemeVideos_decomp w s themeId theme hfound]
    unfold rootContribution
    rfl
  · intro rp l e hmain harch
    unfold rootContribution
    rw [hmain, harch]
    constructor
    · simp
    · simp only [List.append_nil]
      unfold mainTagged
      rw [List.filter_eq_nil_iff]
      intro v hv
      simp only [List.mem_map] at hv
      obtain ⟨r, _, rfl⟩ := hv
      simp
  · intro S2 s2 rp hmain harch
    unfold rootContribution
    rw [hmain, harch]

/-- Witness for C8: the single-root food scenario of the spec
(scenario A). -/
def fsA : MFS :=
  { dirs := ["/videos", "/videos/food", "/videos/food/published"]
    files := ["/videos/food/a.mp4", "/videos/food/b.mp4", "/videos/food/published/c.mp4"] }

def themeA : Theme :=
  { archiveFolderName := some "published"
    resourceRoots := [⟨1, "/videos/food"⟩] }

theorem claim_C8_witness : C8Claim (localWorld themeA) fsA 1 themeA :=
  claim_C8 (localWorld themeA) fsA 1 themeA rfl

/-! ## Claim C1 — positional truth of `isPublished` -/

theorem str_ne_empty_of_pos {s : String} (h : 0 < s.data.length) : s ≠ "" := by
  intro he
  rw [(strEmpty_iff s).1 he] at h
  simp at h

theorem pathJoin_ne_empty {a b : String} (hb : b ≠ "") : pathJoin a b ≠ "" :=
  str_ne_empty_of_pos (Nat.lt_of_le_of_lt (Nat.zero_le _) (pathJoin_len_lt_left hb))

/-- A theme whose resource root is itself named like the archive
folder. -/
def themeC1 : Theme :=
  { archiveFolderName := none
    resourceRoots := [⟨1, "/videos/published"⟩] }

def fsC1 : MFS :=
  { dirs := ["/videos", "/videos/published"]
    files := ["/videos/published/a.mp4"] }

/-- C1 counterexample: with a resource root literally named
`/videos/published` (and the default archive folder name `published`),
the resolver returns the root's video as `isPublished = false`, yet the
basename of its parent directory *is* the archive folder name — the
claimed positional formula `isPublished = (parentDirectoryBasename ==
archiveFolderName)` is violated, because the flag is assigned by the
provenance of the listing, not by inspecting the path. -/
theorem claim_C1_counterexample :
    getThemeVideos (localWorld themeC1) fsC1 1 = .ok
      [⟨"a.mp4", 1, "/videos/published", "/videos/published/a.mp4", false⟩] ∧
    (basename (dirname "/videos/published/a.mp4") ==
      effArchiveFolderName themeC1) = true ∧
    ¬ (∀ v ∈ [(⟨"a.mp4", 1, "/videos/published", "/videos/published/a.mp4",
          false⟩ : VideoEntry)],
        v.isPublished = (basename (dirname v.fullPath) == effArchiveFolderName themeC1)) := by
  refine ⟨by decide, by decide, by decide⟩

/-- C1 (amended): the resolver's `isPublished` flag is purely
positional — it equals `basename (dirname fullPath) == archiveFolderName`
— provided the listings return plain file names (non-empty, without
slashes), the archive folder name contains no slash, and no resource
root's own basename coincides with the archive folder name (the
counterexample shows the formula fails without the last proviso; the
provenance reading of the claim — `true` exactly for archive-listing
entries, `false` exactly for main-listing entries — is unconditional by
`mem_rootContribution`). -/
theorem claim_C1 {σ : Type} (w : World σ) (s : σ) (themeId : Nat) (theme : Theme)
    (hfound : w.themes themeId = some theme)
    (hnames : ∀ lib p l, w.store.browse s lib p = .ok l →
      ∀ r ∈ l, r.name ≠ "" ∧ ∀ c ∈ r.name.data, c ≠ '/')
    (hafn : ∀ c ∈ (effArchiveFolderName theme).data, c ≠ '/')
    (hroots : ∀ rp ∈ theme.resourceRoots,
      basename rp.folderPath ≠ effArchiveFolderName theme)
    (videos : List VideoEntry)
    (hvid : getThemeVideos w s themeId = .ok videos) :
    ∀ v ∈ videos, v.isPublished =
      (basename (dirname v.fullPath) == effArchiveFolderName theme) := by
  intro v hv
  rw [getThemeVideos_eq_inventory w s themeId theme hfound] at hvid
  injection hvid with hvid
  subst hvid
  obtain ⟨rp, hrp, hvc⟩ := mem_inventory_elim hv
  have hafne := effArchiveFolderName_ne_empty theme
  rcases mem_rootContribution hvc with ⟨l, r, hbrowse, hrl, hrt, rfl⟩ | ⟨l, r, hbrowse, hrl, hrt, rfl⟩
  · -- main-folder entry: flag is false and the parent basename differs
    obtain ⟨hne, hslash⟩ := hnames _ _ _ hbrowse r hrl
    show (false : Bool) =
      (basename (dirname (rp.folderPath ++ "/" ++ r.name)) == effArchiveFolderName theme)
    symm
    rw [beq_eq_false_iff_ne]
    by_cases hfp : rp.folderPath = ""
    · rw [hfp]
      have h1 : ("" : String) ++ "/" ++ r.name = ⟨'/' :: r.name.data⟩ := by
        rw [show ("" : String) ++ "/" = ⟨['/']⟩ from rfl]
        rw [show (⟨['/']⟩ : String) ++ r.name = ⟨['/'] ++ r.name.data⟩ from by
          rw [← strMk_data r.name, strMk_append]]
        rfl
      rw [h1, dirname_mk_root _ hslash]
      rw [show basename "/" = "" from rfl]
      exact fun hc => hafne hc.symm
    · rw [dirname_concat hfp hslash]
      exact hroots rp hrp
  · -- archive-folder entry: flag is true and the parent basename matches
    obtain ⟨hne, hslash⟩ := hnames _ _ _ hbrowse r hrl
    show (true : Bool) =
      (basename (dirname (pathJoin rp.folderPath (effArchiveFolderName theme) ++ "/" ++
        r.name)) == effArchiveFolderName theme)
    have hjne : pathJoin rp.folderPath (effArchiveFolderName theme) ≠ "" :=
      pathJoin_ne_empty hafne
    rw [dirname_concat hjne hslash, basename_pathJoin hafne hafn]
    exact (beq_self_eq_true _).symm

/-- The finite read-only store of the witness scenarios: one library
whose two folders contain the scenario-A videos. -/
def listStoreA : Store Unit :=
  { getLib := fun _ _ => .ok ()
    browse := fun _ _ p =>
      .ok (if p = "/videos/food" then
             [{ name := "a.mp4", path := "a.mp4", rtype := "video" },
              { name := "b.mp4", path := "b.mp4", rtype := "video" }]
           else if p = "/videos/food/published" then
             [{ name := "c.mp4", path := "c.mp4", rtype := "video" }]
           else [])
    getInfo := fun _ _ _ => .error "ENOENT"
    createFolder := fun st _ _ => .ok st
    move := fun st _ _ _ => .ok st }

def worldA : World Unit :=
  { themes := fun i => if i = 1 then some themeA else none
    store := listStoreA }

theorem claim_C1_witness :
    (true : Bool) =
      (basename (dirname "/videos/food/published/c.mp4") == effArchiveFolderName themeA) :=
  claim_C1 worldA () 1 themeA rfl
    (by
      intro lib p l h r hr
      injection h with h
      subst h
      split at hr
      · fin_cases hr <;> decide
      · split at hr
        · fin_cases hr <;> decide
        · cases hr)
    (by decide) (by decide)
    [⟨"a.mp4", 1, "/videos/food", "/videos/food/a.mp4", false⟩,
     ⟨"b.mp4", 1, "/videos/food", "/videos/food/b.mp4", false⟩,
     ⟨"c.mp4", 1, "/videos/food/published", "/videos/food/published/c.mp4", true⟩]
    (by decide)
    ⟨"c.mp4", 1, "/videos/food/published", "/videos/food/published/c.mp4", true⟩
    (by decide)

/-! ## Claim C4 — unarchive guard and target path -/

def fsC4 : MFS :=
  { dirs := ["/videos", "/videos/unpublished"]
    files := ["/videos/unpublished/c.mp4"] }

/-- C4 counterexample: for a video under `/videos/unpublished` and the
default archive folder name `published`, the basename of the current
directory (`unpublished`) differs from the archive folder name, yet
`unarchiveVideo` does **not** fail: the guard is the string-suffix test
`directory.endsWith(archiveFolderName)`, which `/videos/unpublished`
passes, so the move is performed (one level up, to `/videos/c.mp4`). -/
theorem claim_C4_counterexample :
    basename (dirname "/videos/unpublished/c.mp4") ≠ effArchiveFolderName themeA ∧
    unarchiveVideo (localWorld themeA) fsC4 1 1 "/videos/unpublished/c.mp4" =
      .ok { dirs := ["/videos", "/videos/unpublished"], files := ["/videos/c.mp4"] } := by
  refine ⟨by decide, by decide⟩

/-- C4 (amended): the unarchive target is
`path.join(dirname(dirname p), basename p)` — one level up — and the
attempt fails with a descriptive error, performing no move, exactly when
`dirname p` does not **end with** the archive folder name as a string
suffix (not when its basename differs: a directory such as
`/videos/unpublished` passes the `endsWith("published")` guard). -/
theorem claim_C4 {σ : Type} (w : World σ) (s : σ) (themeId libraryId : Nat)
    (theme : Theme) (videoPath : String)
    (hfound : w.themes themeId = some theme)
    (hlib : w.store.getLib s libraryId = .ok ()) :
    (charEndsWith (dirname videoPath) (effArchiveFolderName theme) = false →
      unarchiveVideo w s themeId libraryId videoPath = .error "视频不在归档文件夹中") ∧
    (charEndsWith (dirname videoPath) (effArchiveFolderName theme) = true →
      unarchiveVideo w s themeId libraryId videoPath =
        w.store.move s libraryId videoPath
          (pathJoin (dirname (dirname videoPath)) (basename videoPath))) := by
  constructor
  · intro hguard
    unfold unarchiveVideo
    rw [hfound, hlib]
    simp only [hguard]
    rfl
  · intro hguard
    unfold unarchiveVideo
    rw [hfound, hlib]
    simp only [hguard]
    rfl

theorem claim_C4_witness :
    unarchiveVideo (localWorld themeA) fsA 1 1 "/videos/food/b.mp4" =
      .error "视频不在归档文件夹中" :=
  (claim_C4 (localWorld themeA) fsA 1 1 themeA "/videos/food/b.mp4" rfl rfl).1 (by decide)

/-! ## Claim C2 — batch report contract -/

/-- Unfolding of `batchArchiveVideos` through a completed run of its
per-video loop. -/
theorem batchArchiveVideos_run {σ : Type} (w : World σ) (s : σ) (themeId : Nat)
    (theme : Theme) (videoPaths : List String)
    (hfound : w.themes themeId = some theme)
    (results : List ItemResult) (s' : σ)
    (hrun : runBatchLoop (fun st v => archiveVideo w st themeId v.libraryId v.fullPath) s
      ((inventory w.store s theme).filter (fun v =>
        videoPaths.contains v.fullPath && !v.isPublished)) = (results, s')) :
    batchArchiveVideos w s themeId videoPaths = .ok
      ({ total := videoPaths.length
         archived := (results.filter (fun r => r.success)).length
         failed := (results.filter (fun r => !r.success)).length
         results := results }, s') := by
  unfold batchArchiveVideos
  simp only [hfound]
  rw [getThemeVideos_eq_inventory w s themeId theme hfound]
  simp only [hrun]

/-- Unfolding of `batchUnarchiveVideos` through a completed run of its
per-video loop. -/
theorem batchUnarchiveVideos_run {σ : Type} (w : World σ) (s : σ) (themeId : Nat)
    (theme : Theme) (videoPaths : List String)
    (hfound : w.themes themeId = some theme)
    (results : List ItemResult) (s' : σ)
    (hrun : runBatchLoop (fun st v => unarchiveVideo w st themeId v.libraryId v.fullPath) s
      ((inventory w.store s theme).filter (fun v =>
        videoPaths.contains v.fullPath && v.isPublished)) = (results, s')) :
    batchUnarchiveVideos w s themeId videoPaths = .ok
      ({ total := videoPaths.length
         unarchived := (results.filter (fun r => r.success)).length
         failed := (results.filter (fun r => !r.success)).length
         results := results }, s') := by
  unfold batchUnarchiveVideos
  simp only [hfound]
  rw [getThemeVideos_eq_inventory w s themeId theme hfound]
  simp only [hrun]

/-- The per-batch result contract of claim C2 for one direction of the
engine: `total` counts every requested path (duplicates and
non-matching paths included); the `results` entries are in one-to-one
correspondence, in order, with the eligible videos (requested and of
the required status); the success counter and `failed` partition the
attempts; a matched path has exactly one entry, an unmatched path none;
and with no eligible video the state is untouched. -/
def C2Half {σ : Type} (inv : List VideoEntry) (videoPaths : List String)
    (wantPublished : Bool) (total moved failed : Nat)
    (results : List ItemResult) (s s' : σ) : Prop :=
  let eligible := inv.filter (fun v =>
    videoPaths.contains v.fullPath && (v.isPublished == wantPublished))
  total = videoPaths.length ∧
  results.map (fun r => r.path) = eligible.map (fun v => v.fullPath) ∧
  moved = (results.filter (fun r => r.success)).length ∧
  failed = (results.filter (fun r => !r.success)).length ∧
  moved + failed = eligible.length ∧
  ((eligible.map (fun v => v.fullPath)).Nodup →
    ∀ p, p ∈ videoPaths → (∃ v ∈ inv, v.fullPath = p ∧ v.isPublished = wantPublished) →
      (results.filter (fun r => r.path == p)).length = 1) ∧
  (∀ p, ¬ (p ∈ videoPaths ∧ ∃ v ∈ inv, v.fullPath = p ∧ v.isPublished = wantPublished) →
    ∀ r ∈ results, r.path ≠ p) ∧
  (eligible = [] → results = [] ∧ s' = s)

/-- Generic contract for one `runBatchLoop` execution. -/
theorem runBatchLoop_contract {σ : Type} (op : σ → VideoEntry → Except String σ)
    (inv : List VideoEntry) (videoPaths : List String) (wantPublished : Bool)
    (s : σ) (results : List ItemResult) (s' : σ)
    (hrun : runBatchLoop op s (inv.filter (fun v =>
      videoPaths.contains v.fullPath && (v.isPublished == wantPublished))) =
      (results, s')) :
    C2Half inv videoPaths wantPublished videoPaths.length
      ((results.filter (fun r => r.success)).length)
      ((results.filter (fun r => !r.success)).length) results s s' := by
  set eligible := inv.filter (fun v =>
    videoPaths.contains v.fullPath && (v.isPublished == wantPublished)) with heligible
  have hpaths : results.map (fun r => r.path) = eligible.map (fun v => v.fullPath) := by
    have := runBatchLoop_paths op s eligible
    rw [hrun] at this
    exact this
  have hmatched : ∀ p, p ∈ eligible.map (fun v => v.fullPath) ↔
      (p ∈ videoPaths ∧ ∃ v ∈ inv, v.fullPath = p ∧ v.isPublished = wantPublished) := by
    intro p
    rw [heligible]
    simp only [List.mem_map, List.mem_filter, Bool.and_eq_true, beq_iff_eq]
    constructor
    · rintro ⟨v, ⟨hvi, hvp, hvs⟩, rfl⟩
      exact ⟨by simpa using hvp, v, hvi, rfl, hvs⟩
    · rintro ⟨hp, v, hvi, rfl, hvs⟩
      exact ⟨v, ⟨hvi, by simpa using hp, hvs⟩, rfl⟩
  refine ⟨rfl, hpaths, rfl, rfl, ?_, ?_, ?_, ?_⟩
  · rw [length_filter_add_length_filter_not]
    have h := congrArg List.length hpaths
    rw [List.length_map, List.length_map] at h
    exact h
  · intro hnodup p hp hmv
    have hpin : p ∈ eligible.map (fun v => v.fullPath) := (hmatched p).2 ⟨hp, hmv⟩
    have h1 : (results.filter (fun r => r.path == p)).length =
        ((results.map (fun r => r.path)).filter (fun q => q == p)).length := by
      rw [List.filter_map, List.length_map]
      rfl
    rw [h1, hpaths]
    have h2 : ((eligible.map (fun v => v.fullPath)).filter (fun q => q == p)).length =
        (eligible.map (fun v => v.fullPath)).count p := by
      rw [List.count]
      rw [List.countP_eq_length_filter]
    rw [h2]
    exact List.count_eq_one_of_mem hnodup hpin
  · intro p hnp r hr hrp
    apply hnp
    rw [← hmatched p, ← hrp]
    rw [← hpaths]
    exact List.mem_map_of_mem _ hr
  · intro hel
    rw [← heligible] at hel
    rw [hel] at hrun
    unfold runBatchLoop at hrun
    injection hrun with h1 h2
    exact ⟨h1.symm, h2.symm⟩

/-- The verified statement of claim C2 for a world, state, theme and
requested path list: both engines return normally with the full result
contract. -/
def C2Claim {σ : Type} (w : World σ) (s : σ) (themeId : Nat) (theme : Theme)
    (videoPaths : List String) : Prop :=
  (∃ rep s1, batchArchiveVideos w s themeId videoPaths = .ok (rep, s1) ∧
    C2Half (inventory w.store s theme) videoPaths false
      rep.total rep.archived rep.failed rep.results s s1) ∧
  (∃ rep s1, batchUnarchiveVideos w s themeId videoPaths = .ok (rep, s1) ∧
    C2Half (inventory w.store s theme) videoPaths true
      rep.total rep.unarchived rep.failed rep.results s s1)

/-- C2: batch archive (and symmetrically unarchive) reports
`total = |requested|` (duplicates and unmatched paths included), one
`results` entry per eligible video in inventory order, success/failed
counters partitioning the attempts; an unmatched requested path is
counted in `total` but appears nowhere in `results`, and with no
eligible video the filesystem state is returned untouched. -/
theorem claim_C2 {σ : Type} (w : World σ) (s : σ) (themeId : Nat) (theme : Theme)
    (videoPaths : List String) (hfound : w.themes themeId = some theme) :
    C2Claim w s themeId theme videoPaths := by
  constructor
  · obtain ⟨results, s1, hrun⟩ :
        ∃ r s1, runBatchLoop (fun st v => archiveVideo w st themeId v.libraryId v.fullPath) s
          ((inventory w.store s theme).filter (fun v =>
            videoPaths.contains v.fullPath && !v.isPublished)) = (r, s1) :=
      ⟨_, _, rfl⟩
    have hfilter : (inventory w.store s theme).filter (fun v =>
        videoPaths.contains v.fullPath && !v.isPublished) =
      (inventory w.store s theme).filter (fun v =>
        videoPaths.contains v.fullPath && (v.isPublished == false)) := by
      apply List.filter_congr
      intro v _
      cases v.isPublished <;> rfl
    refine ⟨_, s1, batchArchiveVideos_run w s themeId theme videoPaths hfound results s1 hrun, ?_⟩
    exact runBatchLoop_contract _ _ _ _ _ _ _ (by rw [← hfilter]; exact hrun)
  · obtain ⟨results, s1, hrun⟩ :
        ∃ r s1, runBatchLoop (fun st v => unarchiveVideo w st themeId v.libraryId v.fullPath) s
          ((inventory w.store s theme).filter (fun v =>
            videoPaths.contains v.fullPath && v.isPublished)) = (r, s1) :=
      ⟨_, _, rfl⟩
    have hfilter : (inventory w.store s theme).filter (fun v =>
        videoPaths.contains v.fullPath && v.isPublished) =
      (inventory w.store s theme).filter (fun v =>
        videoPaths.contains v.fullPath && (v.isPublished == true)) := by
      apply List.filter_congr
      intro v _
      cases v.isPublished <;> rfl
    refine ⟨_, s1, batchUnarchiveVideos_run w s themeId theme videoPaths hfound results s1 hrun, ?_⟩
    exact runBatchLoop_contract _ _ _ _ _ _ _ (by rw [← hfilter]; exact hrun)

/-- Witness for C2: scenario A with a duplicate and an unmatched
requested path. -/
theorem claim_C2_witness :
    C2Claim (localWorld themeA) fsA 1 themeA
      ["/videos/food/a.mp4", "/videos/food/published/c.mp4", "/missing.mp4",
       "/missing.mp4"] :=
  claim_C2 (localWorld themeA) fsA 1 themeA
    ["/videos/food/a.mp4", "/videos/food/published/c.mp4", "/missing.mp4",
     "/missing.mp4"] rfl

/-! ## Claim C3 — partial failure isolation -/

/-- With the library resolvable and the archive folder reported present,
a single-video archive is exactly one backend move. -/
theorem archiveVideo_as_move {σ : Type} (w : World σ) (st : σ) (themeId lib : Nat)
    (theme : Theme) (p : String) (hfound : w.themes themeId = some theme)
    (hlib : w.store.getLib st lib = .ok ())
    (hinfo : ∃ r, w.store.getInfo st lib
      (pathJoin (dirname p) (effArchiveFolderName theme)) = .ok r) :
    archiveVideo w st themeId lib p =
      w.store.move st lib p
        (pathJoin (pathJoin (dirname p) (effArchiveFolderName theme)) (basename p)) := by
  obtain ⟨r, hr⟩ := hinfo
  unfold archiveVideo
  simp only [hfound, hlib, hr]

/-- With the library resolvable and the guard passing, a single-video
unarchive is exactly one backend move. -/
theorem unarchiveVideo_as_move {σ : Type} (w : World σ) (st : σ) (themeId lib : Nat)
    (theme : Theme) (p : String) (hfound : w.themes themeId = some theme)
    (hlib : w.store.getLib st lib = .ok ())
    (hguard : charEndsWith (dirname p) (effArchiveFolderName theme) = true) :
    unarchiveVideo w st themeId lib p =
      w.store.move st lib p (pathJoin (dirname (dirname p)) (basename p)) := by
  unfold unarchiveVideo
  simp only [hfound, hlib, hguard]
  rfl

/-- The verified statement of claim C3: with every backend move
succeeding except on the one source path `p0`, both engines return
normally, report `total = |requested|`, attempt every eligible item in
order, and flag exactly the `p0` items as failed. -/
def C3Claim {σ : Type} (w : World σ) (s : σ) (themeId : Nat) (theme : Theme)
    (videoPaths : List String) (p0 : String) : Prop :=
  (∃ rep s1, batchArchiveVideos w s themeId videoPaths = .ok (rep, s1) ∧
    rep.total = videoPaths.length ∧
    rep.results.map (fun r => r.path) =
      ((inventory w.store s theme).filter (fun v =>
        videoPaths.contains v.fullPath && !v.isPublished)).map (fun v => v.fullPath) ∧
    (∀ r ∈ rep.results, r.success = true ↔ r.path ≠ p0)) ∧
  (∃ rep s1, batchUnarchiveVideos w s themeId videoPaths = .ok (rep, s1) ∧
    rep.total = videoPaths.length ∧
    rep.results.map (fun r => r.path) =
      ((inventory w.store s theme).filter (fun v =>
        videoPaths.contains v.fullPath && v.isPublished)).map (fun v => v.fullPath) ∧
    (∀ r ∈ rep.results, r.success = true ↔ r.path ≠ p0))

/-- C3: one failing backend move is caught and converted into that
item's `{success: false, message}` entry, every other eligible item is
still attempted (no short-circuit), and no exception escapes either
batch call. -/
theorem claim_C3 {σ : Type} (w : World σ) (s : σ) (themeId : Nat) (theme : Theme)
    (videoPaths : List String) (p0 : String)
    (hfound : w.themes themeId = some theme)
    (hlib : ∀ st lib, w.store.getLib st lib = .ok ())
    (hinfo : ∀ st lib p, ∃ r, w.store.getInfo st lib p = .ok r)
    (hmoveOk : ∀ st lib src tgt, src ≠ p0 → ∃ s2, w.store.move st lib src tgt = .ok s2)
    (hmoveBad : ∀ st lib tgt, ∃ e, w.store.move st lib p0 tgt = .error e)
    (hnames : ∀ lib p l, w.store.browse s lib p = .ok l →
      ∀ r ∈ l, r.name ≠ "" ∧ ∀ c ∈ r.name.data, c ≠ '/') :
    C3Claim w s themeId theme videoPaths p0 := by
  have hafne := effArchiveFolderName_ne_empty theme
  constructor
  · -- archive half
    obtain ⟨results, s1, hrun⟩ :
        ∃ r s1, runBatchLoop (fun st v => archiveVideo w st themeId v.libraryId v.fullPath) s
          ((inventory w.store s theme).filter (fun v =>
            videoPaths.contains v.fullPath && !v.isPublished)) = (r, s1) :=
      ⟨_, _, rfl⟩
    refine ⟨_, s1, batchArchiveVideos_run w s themeId theme videoPaths hfound results s1 hrun,
      rfl, ?_, ?_⟩
    · have := runBatchLoop_paths
        (fun st v => archiveVideo w st themeId v.libraryId v.fullPath) s
        ((inventory w.store s theme).filter (fun v =>
          videoPaths.contains v.fullPath && !v.isPublished))
      rw [hrun] at this
      exact this
    · have := runBatchLoop_flags
        (fun st v => archiveVideo w st themeId v.libraryId v.fullPath) s
        ((inventory w.store s theme).filter (fun v =>
          videoPaths.contains v.fullPath && !v.isPublished))
        (fun q => q ≠ p0)
        (fun st v _ hg => by
          show ∃ s2, archiveVideo w st themeId v.libraryId v.fullPath = Except.ok s2
          rw [archiveVideo_as_move w st themeId v.libraryId theme v.fullPath hfound
            (hlib st v.libraryId) (hinfo st v.libraryId _)]
          exact hmoveOk st v.libraryId v.fullPath _ hg)
        (fun st v _ hg => by
          show ∃ e, archiveVideo w st themeId v.libraryId v.fullPath = Except.error e
          rw [archiveVideo_as_move w st themeId v.libraryId theme v.fullPath hfound
            (hlib st v.libraryId) (hinfo st v.libraryId _)]
          rw [not_not] at hg
          rw [hg]
          exact hmoveBad st v.libraryId _)
      rw [hrun] at this
      exact this
  · -- unarchive half
    obtain ⟨results, s1, hrun⟩ :
        ∃ r s1, runBatchLoop (fun st v => unarchiveVideo w st themeId v.libraryId v.fullPath) s
          ((inventory w.store s theme).filter (fun v =>
            videoPaths.contains v.fullPath && v.isPublished)) = (r, s1) :=
      ⟨_, _, rfl⟩
    have hguard : ∀ v ∈ (inventory w.store s theme).filter (fun v =>
        videoPaths.contains v.fullPath && v.isPublished),
        charEndsWith (dirname v.fullPath) (effArchiveFolderName theme) = true := by
      intro v hv
      rw [List.mem_filter] at hv
      obtain ⟨hvi, hvf⟩ := hv
      have hpub : v.isPublished = true := by
        revert hvf
        cases v.isPublished <;> simp
      obtain ⟨rp, _, hvc⟩ := mem_inventory_elim hvi
      rcases mem_rootContribution hvc with ⟨l, r, _, _, _, heq⟩ | ⟨l, r, hbrowse, hrl, _, heq⟩
      · rw [heq] at hpub
        simp at hpub
      · obtain ⟨hne, hslash⟩ := hnames _ _ _ hbrowse r hrl
        rw [heq]
        simp only
        rw [dirname_concat (pathJoin_ne_empty hafne) hslash]
        exact charEndsWith_pathJoin _ _ hafne
    refine ⟨_, s1, batchUnarchiveVideos_run w s themeId theme videoPaths hfound results s1 hrun,
      rfl, ?_, ?_⟩
    · have := runBatchLoop_paths
        (fun st v => unarchiveVideo w st themeId v.libraryId v.fullPath) s
        ((inventory w.store s theme).filter (fun v =>
          videoPaths.contains v.fullPath && v.isPublished))
      rw [hrun] at this
      exact this
    · have := runBatchLoop_flags
        (fun st v => unarchiveVideo w st themeId v.libraryId v.fullPath) s
        ((inventory w.store s theme).filter (fun v =>
          videoPaths.contains v.fullPath && v.isPublished))
        (fun q => q ≠ p0)
        (fun st v hv hg => by
          show ∃ s2, unarchiveVideo w st themeId v.libraryId v.fullPath = Except.ok s2
          rw [unarchiveVideo_as_move w st themeId v.libraryId theme v.fullPath hfound
            (hlib st v.libraryId) (hguard v hv)]
          exact hmoveOk st v.libraryId v.fullPath _ hg)
        (fun st v hv hg => by
          show ∃ e, unarchiveVideo w st themeId v.libraryId v.fullPath = Except.error e
          rw [unarchiveVideo_as_move w st themeId v.libraryId theme v.fullPath hfound
            (hlib st v.libraryId) (hguard v hv)]
          rw [not_not] at hg
          rw [hg]
          exact hmoveBad st v.libraryId _)
      rw [hrun] at this
      exact this

/-- An injected-failure store for the C3 witness: every move succeeds
(as a no-op on the unit state) except from the failing source path. -/
def faultStore (p0 : String) : Store Unit :=
  { getLib := fun _ _ => .ok ()
    browse := listStoreA.browse
    getInfo := fun _ _ _ => .ok "folder"
    createFolder := fun st _ _ => .ok st
    move := fun st _ src _ =>
      if src = p0 then .error "injected backend failure" else .ok st }

def faultWorld (p0 : String) : World Unit :=
  { themes := fun i => if i = 1 then some themeA else none
    store := faultStore p0 }

theorem claim_C3_witness :
    C3Claim (faultWorld "/videos/food/a.mp4") () 1 themeA
      ["/videos/food/a.mp4", "/videos/food/b.mp4"] "/videos/food/a.mp4" :=
  claim_C3 (faultWorld "/videos/food/a.mp4") () 1 themeA
    ["/videos/food/a.mp4", "/videos/food/b.mp4"] "/videos/food/a.mp4" rfl
    (fun _ _ => rfl) (fun _ _ _ => ⟨"folder", rfl⟩)
    (fun st lib src tgt hg => ⟨st, by simp [faultWorld, faultStore, hg]⟩)
    (fun st lib tgt => ⟨"injected backend failure", by simp [faultWorld, faultStore]⟩)
    (by
      intro lib p l h r hr
      injection h with h
      subst h
      split at hr
      · fin_cases hr <;> decide
      · split at hr
        · fin_cases hr <;> decide
        · cases hr)

/-! ## Claim C7 — batch publish fan-out -/

/-- The task-sink payload for one `(account, video)` pair. -/
def taskDataFor (opts : PublishOptions) (accountId : Nat) (v : VideoEntry) :
    TaskCreateData :=
  { platformId := accountId
    libraryId := v.libraryId
    resourcePath := v.fullPath
    title := taskTitle opts v.name
    tags := taskTags opts }

/-- The identifying projection of a returned task record (everything
except the sink-allocated id and the flag). -/
def taskProj (task : PublishedTask) : Nat × String × String × Nat :=
  (task.accountId, task.videoName, task.videoPath, task.libraryId)

theorem publishInner_proj {τ : Type} (sink : TaskSink τ) (opts : PublishOptions)
    (auto : Bool) (a : Nat) (vids : List VideoEntry)
    (acc : List PublishedTask) (t : τ) :
    ((vids.foldl (fun (acc : List PublishedTask × τ) video =>
      let title := taskTitle opts video.name
      let (taskId, t2) := sink.createTask acc.2
        { platformId := a
          libraryId := video.libraryId
          resourcePath := video.fullPath
          title := title
          tags := taskTags opts }
      (acc.1 ++ [{ taskId := taskId
                   accountId := a
                   videoName := video.name
                   videoPath := video.fullPath
                   libraryId := video.libraryId
                   autoArchive := auto }], t2)) (acc, t)).1).map taskProj =
      acc.map taskProj ++ vids.map (fun v => (a, v.name, v.fullPath, v.libraryId)) := by
  induction vids generalizing acc t with
  | nil => simp
  | cons v rest ih =>
    rw [List.foldl_cons]
    rw [ih]
    simp [taskProj]

theorem publishInner_state (opts : PublishOptions)
    (auto : Bool) (a : Nat) (vids : List VideoEntry)
    (acc : List PublishedTask) (t : List TaskCreateData) :
    (vids.foldl (fun (acc : List PublishedTask × List TaskCreateData) video =>
      let title := taskTitle opts video.name
      let (taskId, t2) := recordingSink.createTask acc.2
        { platformId := a
          libraryId := video.libraryId
          resourcePath := video.fullPath
          title := title
          tags := taskTags opts }
      (acc.1 ++ [{ taskId := taskId
                   accountId := a
                   videoName := video.name
                   videoPath := video.fullPath
                   libraryId := video.libraryId
                   autoArchive := auto }], t2)) (acc, t)).2 =
      t ++ vids.map (taskDataFor opts a) := by
  induction vids generalizing acc t with
  | nil => simp
  | cons v rest ih =>
    rw [List.foldl_cons]
    rw [ih]
    simp [recordingSink, taskDataFor]

theorem publishInner_auto {τ : Type} (sink : TaskSink τ) (opts : PublishOptions)
    (auto : Bool) (a : Nat) (vids : List VideoEntry)
    (acc : List PublishedTask) (t : τ) :
    ∀ task ∈ ((vids.foldl (fun (acc : List PublishedTask × τ) video =>
      let title := taskTitle opts video.name
      let (taskId, t2) := sink.createTask acc.2
        { platformId := a
          libraryId := video.libraryId
          resourcePath := video.fullPath
          title := title
          tags := taskTags opts }
      (acc.1 ++ [{ taskId := taskId
                   accountId := a
                   videoName := video.name
                   videoPath := video.fullPath
                   libraryId := video.libraryId
                   autoArchive := auto }], t2)) (acc, t)).1),
      task ∈ acc ∨ task.autoArchive = auto := by
  induction vids generalizing acc t with
  | nil => intro task h; exact Or.inl h
  | cons v rest ih =>
    intro task h
    rw [List.foldl_cons] at h
    rcases ih _ _ task h with hin | hauto
    · rw [List.mem_append] at hin
      rcases hin with hin | hin
      · exact Or.inl hin
      · simp only [List.mem_singleton] at hin
        subst hin
        exact Or.inr rfl
    · exact Or.inr hauto

theorem publishLoop_proj {τ : Type} (sink : TaskSink τ) (opts : PublishOptions)
    (auto : Bool) (vids : List VideoEntry) (accounts : List Nat)
    (acc : List PublishedTask) (t : τ) :
    ((publishLoop sink opts auto vids (acc, t) accounts).1).map taskProj =
      acc.map taskProj ++ (accounts.map (fun a =>
        vids.map (fun v => (a, v.name, v.fullPath, v.libraryId)))).flatten := by
  induction accounts generalizing acc t with
  | nil => simp [publishLoop]
  | cons a rest ih =>
    unfold publishLoop
    rcases hinner : vids.foldl _ (acc, t) with ⟨acc2, t2⟩
    have h1 := publishInner_proj sink opts auto a vids acc t
    rw [hinner] at h1
    rw [ih]
    rw [h1]
    simp

theorem publishLoop_state (opts : PublishOptions)
    (auto : Bool) (vids : List VideoEntry) (accounts : List Nat)
    (acc : List PublishedTask) (t : List TaskCreateData) :
    (publishLoop recordingSink opts auto vids (acc, t) accounts).2 =
      t ++ (accounts.map (fun a => vids.map (taskDataFor opts a))).flatten := by
  induction accounts generalizing acc t with
  | nil => simp [publishLoop]
  | cons a rest ih =>
    unfold publishLoop
    rcases hinner : vids.foldl _ (acc, t) with ⟨acc2, t2⟩
    have h1 := publishInner_state opts auto a vids acc t
    rw [hinner] at h1
    have h2 : t2 = t ++ vids.map (taskDataFor opts a) := h1
    rw [ih]
    rw [h2]
    simp

theorem publishLoop_auto {τ : Type} (sink : TaskSink τ) (opts : PublishOptions)
    (auto : Bool) (vids : List VideoEntry) (accounts : List Nat)
    (acc : List PublishedTask) (t : τ) :
    ∀ task ∈ (publishLoop sink opts auto vids (acc, t) accounts).1,
      task ∈ acc ∨ task.autoArchive = auto := by
  induction accounts generalizing acc t with
  | nil => intro task h; exact Or.inl h
  | cons a rest ih =>
    intro task h
    unfold publishLoop at h
    rcases hinner : vids.foldl _ (acc, t) with ⟨acc2, t2⟩
    rw [hinner] at h
    rcases ih acc2 t2 task h with hin | hauto
    · have := publishInner_auto sink opts auto a vids acc t
      rw [hinner] at this
      exact this task hin
    · exact Or.inr hauto

theorem length_flatten_const {α β : Type} (l : List α) (f : α → List β) (k : Nat)
    (h : ∀ a ∈ l, (f a).length = k) : (l.map f).flatten.length = l.length * k := by
  induction l with
  | nil => simp
  | cons a as ih =>
    simp only [List.map_cons, List.flatten_cons, List.length_append, List.length_cons]
    rw [h a (by simp), ih (fun b hb => h b (by simp [hb]))]
    ring

theorem isEmpty_false_of_ne_nil {α : Type} {l : List α} (h : l ≠ []) :
    l.isEmpty = false := by
  cases l with
  | nil => exact absurd rfl h
  | cons a as => rfl

/-- The verified statement of claim C7 over the recording task sink:
both the report counters and the exact multiset of created tasks. -/
def C7Claim {σ : Type} (w : World σ) (s : σ) (t0 : List TaskCreateData)
    (themeId : Nat) (theme : Theme) (opts : PublishOptions) : Prop :=
  let matched := (inventory w.store s theme).filter (fun v =>
    opts.videoPaths.contains v.fullPath)
  ∃ rep t1, batchPublishThemeVideos w recordingSink s t0 themeId opts = .ok (rep, t1) ∧
    t1 = t0 ++ (opts.accountIds.map (fun a => matched.map (taskDataFor opts a))).flatten ∧
    rep.tasks.map taskProj = (opts.accountIds.map (fun a =>
      matched.map (fun v => (a, v.name, v.fullPath, v.libraryId)))).flatten ∧
    rep.totalTasks = rep.tasks.length ∧
    rep.totalTasks = opts.accountIds.length * matched.length ∧
    rep.accountCount = opts.accountIds.length ∧
    rep.videoCount = matched.length ∧
    (∀ task ∈ rep.tasks, task.autoArchive = (opts.autoArchive != some false))

/-- C7: with a theme present, non-empty account and path lists and at
least one matched inventory video (published or not), exactly one task
is created per `(account, video)` pair — title defaulting to the
filename without extension, tags comma-joined — and the report carries
`totalTasks = accounts × videos`, `accountCount`, `videoCount` and the
effective `autoArchive` flag on every record. -/
theorem claim_C7 {σ : Type} (w : World σ) (s : σ) (t0 : List TaskCreateData)
    (themeId : Nat) (theme : Theme) (opts : PublishOptions)
    (hfound : w.themes themeId = some theme)
    (hacc : opts.accountIds ≠ [])
    (hvp : opts.videoPaths ≠ [])
    (hmatch : (inventory w.store s theme).filter (fun v =>
      opts.videoPaths.contains v.fullPath) ≠ []) :
    C7Claim w s t0 themeId theme opts := by
  unfold C7Claim
  set matched := (inventory w.store s theme).filter (fun v =>
    opts.videoPaths.contains v.fullPath) with hmatched
  rcases hl : publishLoop recordingSink opts (opts.autoArchive != some false)
      matched ([], t0) opts.accountIds with ⟨tasks, t1⟩
  have hopen : batchPublishThemeVideos w recordingSink s t0 themeId opts = .ok
      ({ tasks := tasks
         totalTasks := tasks.length
         accountCount := opts.accountIds.length
         videoCount := matched.length }, t1) := by
    unfold batchPublishThemeVideos
    simp only [hfound]
    rw [isEmpty_false_of_ne_nil hacc, isEmpty_false_of_ne_nil hvp]
    rw [getThemeVideos_eq_inventory w s themeId theme hfound]
    simp only [← hmatched, isEmpty_false_of_ne_nil hmatch, hl]
    rfl
  have hproj := publishLoop_proj recordingSink opts (opts.autoArchive != some false)
    matched opts.accountIds [] t0
  rw [hl] at hproj
  have hstate := publishLoop_state opts (opts.autoArchive != some false)
    matched opts.accountIds [] t0
  rw [hl] at hstate
  have hlen : tasks.length = opts.accountIds.length * matched.length := by
    have h2 := congrArg List.length hproj
    rw [List.length_map] at h2
    rw [h2]
    exact length_flatten_const opts.accountIds _ matched.length
      (fun a _ => by rw [List.length_map])
  refine ⟨_, t1, hopen, by simpa using hstate, by simpa using hproj, rfl, hlen, rfl, rfl, ?_⟩
  intro task htask
  have := publishLoop_auto recordingSink opts (opts.autoArchive != some false)
    matched opts.accountIds [] t0
  rw [hl] at this
  rcases this task htask with hin | hauto
  · cases hin
  · exact hauto

/-- Witness for C7: scenario D — accounts 1 and 2 over one matched
video. -/
theorem claim_C7_witness :
    C7Claim worldA () [] 1 themeA
      { accountIds := [1, 2]
        videoPaths := ["/videos/food/a.mp4"]
        autoArchive := some true
        title := none
        tags := some ["tag1", "tag2"] } :=
  claim_C7 worldA () [] 1 themeA _ rfl (by decide) (by decide) (by decide)

/-! ## Claim C9 — provider move contracts (and the WebDAV slip) -/

/-- The verified local-backend move contract: fail on an absent source,
fail on an existing target (the handcrafted error's `code` is not
`ENOENT`, so the catch rethrows it), otherwise create the target's
missing intermediate directories and rename. -/
def C9LocalContract (cfg : LocalCfg) (fs : MFS) (src tgt : String) : Prop :=
  (fsExistsB fs (pathJoin cfg.basePath src) = false →
    localMove cfg fs src tgt =
      .error { message := "ENOENT: no such file or directory", code := some "ENOENT" }) ∧
  (fsExistsB fs (pathJoin cfg.basePath src) = true →
    fsExistsB fs (pathJoin cfg.basePath tgt) = true →
    localMove cfg fs src tgt = .error { message := "目标路径已存在: " ++ tgt }) ∧
  (fsExistsB fs (pathJoin cfg.basePath src) = true →
    fsExistsB fs (pathJoin cfg.basePath tgt) = false →
    ∀ fs1, mkdirP fs (dirname (pathJoin cfg.basePath tgt)) = .ok fs1 →
      localMove cfg fs src tgt =
        .ok (renameFS fs1 (pathJoin cfg.basePath src) (pathJoin cfg.basePath tgt)))

def fsC9 : MFS :=
  { dirs := ["/d", "/d/published"]
    files := ["/d/a.mp4", "/d/published/a.mp4"] }

/-- C9: the local backend satisfies the full move contract, and the
WebDAV backend rejects an absent source — but on an **existing target**
the WebDAV backend does *not* raise: its `目标路径已存在` error carries no
`response`, the catch `if (error.response && error.response.status !==
404)` therefore swallows it, and `moveFile` proceeds, overwriting the
target (shown at a concrete input where the same shape makes the local
backend raise). -/
theorem claim_C9 :
    (∀ cfg fs src tgt, C9LocalContract cfg fs src tgt) ∧
    (∀ bp fs src tgt, fsExistsB fs (normalizePathW (pathJoin bp src)) = false →
      davMove bp fs src tgt = .error { message := "Not Found", status := some 404 }) ∧
    (fsExistsB fsC9 "/d/published/a.mp4" = true ∧
      davMove "/" fsC9 "/d/a.mp4" "/d/published/a.mp4" =
        .ok { dirs := ["/d", "/d/published"], files := ["/d/published/a.mp4"] } ∧
      localMove plainCfg fsC9 "/d/a.mp4" "/d/published/a.mp4" =
        .error { message := "目标路径已存在: /d/published/a.mp4" }) := by
  refine ⟨?_, ?_, by decide, by decide, by decide⟩
  · intro cfg fs src tgt
    refine ⟨?_, ?_, ?_⟩
    · intro habsent
      unfold localMove
      simp [habsent]
    · intro hsrc htgt
      unfold localMove
      simp [hsrc, htgt]
    · intro hsrc htgt fs1 hmk
      unfold localMove
      simp [hsrc, htgt, hmk]
  · intro bp fs src tgt habsent
    unfold davMove davStat
    simp [habsent]

theorem claim_C9_witness :
    C9LocalContract plainCfg fsC9 "/d/a.mp4" "/d/b.mp4" ∧
    localMove plainCfg fsC9 "/d/a.mp4" "/d/b.mp4" =
      .ok { dirs := ["/d", "/d/published"]
            files := ["/d/b.mp4", "/d/published/a.mp4"] } := by
  refine ⟨claim_C9.1 plainCfg fsC9 "/d/a.mp4" "/d/b.mp4", ?_⟩
  have h := (claim_C9.1 plainCfg fsC9 "/d/a.mp4" "/d/b.mp4").2.2 (by decide) (by decide)
    fsC9 (by decide)
  rw [h]
  decide

/-! ## Claim C10 — provider listings never throw -/

/-- The verified statement of claim C10: both backends' `list` returns
`[]` on a missing directory (instead of raising); a missing directory
is indistinguishable from an empty one; and the store built on the
local backend therefore always presents a successful `browse` to the
resolver, whose per-root catch can only be reached through the library
lookup, never through a listing. -/
def C10Claim : Prop :=
  (∀ cfg fs p, fsIsDir fs (pathJoin cfg.basePath p) = false →
    localList cfg fs p = []) ∧
  (∀ bp fs p, fsIsDir fs (normalizePathW (pathJoin bp p)) = false →
    davList bp fs p = []) ∧
  (∀ cfg fs p, fsIsDir fs (pathJoin cfg.basePath p) = true →
    (∀ q ∈ fs.dirs ++ fs.files, dirname q ≠ pathJoin cfg.basePath p) →
    localList cfg fs p = []) ∧
  (∀ cfg fs lib p, ∃ l, (localStore cfg).browse fs lib p = .ok l) ∧
  (∀ cfg fs afn rp, rootContribution (localStore cfg) fs afn rp =
    mainTagged rp (localBrowse cfg fs rp.folderPath "video") ++
      archiveTagged rp (pathJoin rp.folderPath afn)
        (localBrowse cfg fs (pathJoin rp.folderPath afn) "video"))

/-- C10: `LocalResourceLibrary.list` and `WebDAVResourceLibrary.list`
catch every failure and return `[]`, so a failed listing is
indistinguishable from an empty folder at the resolver's interface and
the resolver's per-root catch is never reached via a listing
exception. -/
theorem claim_C10 : C10Claim := by
  refine ⟨?_, ?_, ?_, ?_, ?_⟩
  · intro cfg fs p hdir
    unfold localList localListCore readdirM
    simp [hdir]
  · intro bp fs p hdir
    unfold davList davListCore davDirContents
    simp [hdir]
  · intro cfg fs p hdir hempty
    have h1 : fs.dirs.filter (fun q => dirname q == pathJoin cfg.basePath p) = [] := by
      rw [List.filter_eq_nil_iff]
      intro q hq
      simpa using hempty q (by simp [hq])
    have h2 : fs.files.filter (fun q => dirname q == pathJoin cfg.basePath p) = [] := by
      rw [List.filter_eq_nil_iff]
      intro q hq
      simpa using hempty q (by simp [hq])
    unfold localList localListCore readdirM
    simp [hdir, h1, h2, sortResources, insertionSort]
  · intro cfg fs lib p
    exact ⟨_, rfl⟩
  · intro cfg fs afn rp
    unfold rootContribution
    rfl

/-- Witness for C10: listing a directory that does not exist in the
scenario-A filesystem yields `[]`. -/
theorem claim_C10_witness : localList plainCfg fsA "/videos/food/published/published" = [] :=
  claim_C10.1 plainCfg fsA "/videos/food/published/published" (by decide)

/-! ## Local listing membership (claims C5/C6 machinery) -/

/-- A world over the plain local store with an arbitrary theme
registry. -/
def localWorldG (reg : Nat → Option Theme) : World MFS :=
  { themes := reg
    store := localStore plainCfg }

theorem localList_eq (cfg : LocalCfg) (fs : MFS) (p : String)
    (hdir : fsIsDir fs (pathJoin cfg.basePath p) = true) :
    localList cfg fs p = sortResources
      ((((fs.dirs.filter (fun q => dirname q == pathJoin cfg.basePath p)).map
          (fun q => (basename q, true)) ++
         (fs.files.filter (fun q => dirname q == pathJoin cfg.basePath p)).map
          (fun q => (basename q, false))).map
        (localItemEntries cfg p)).flatten) := by
  unfold localList localListCore readdirM
  simp only [hdir, if_true]
  rw [foldl_append_join]
  simp

theorem mem_localBrowse_intro (cfg : LocalCfg) (fs : MFS) (p q : String)
    (hq : q ∈ fs.files) (hdq : dirname q = pathJoin cfg.basePath p)
    (hdir : fsIsDir fs (pathJoin cfg.basePath p) = true)
    (hhid : charStartsWith (basename q) "." = false)
    (hext : allowedExtOk cfg (extname (basename q)) = true)
    (htype : getResourceType (basename q) = "video") :
    ({ name := basename q, path := pathJoin p (basename q),
       rtype := "video" } : ResourceInfo) ∈ localBrowse cfg fs p "video" := by
  unfold localBrowse
  rw [List.mem_filter]
  constructor
  · rw [localList_eq cfg fs p hdir, mem_sortResources, List.mem_flatten]
    refine ⟨localItemEntries cfg p (basename q, false), ?_, ?_⟩
    · rw [List.mem_map]
      refine ⟨(basename q, false), ?_, rfl⟩
      rw [List.mem_append]
      right
      rw [List.mem_map]
      exact ⟨q, by rw [List.mem_filter]; exact ⟨hq, by simp [hdq]⟩, rfl⟩
    · unfold localItemEntries
      simp only [hhid, Bool.false_eq_true, if_false]
      simp only [hext, Bool.not_true, Bool.false_eq_true, if_false]
      rw [htype]
      simp
  · simp

theorem mem_localBrowse_elim {cfg : LocalCfg} {fs : MFS} {p : String}
    {entry : ResourceInfo} (h : entry ∈ localBrowse cfg fs p "video") :
    ∃ q ∈ fs.files, dirname q = pathJoin cfg.basePath p ∧
      entry = { name := basename q, path := pathJoin p (basename q), rtype := "video" } ∧
      charStartsWith (basename q) "." = false ∧
      getResourceType (basename q) = "video" := by
  unfold localBrowse at h
  rw [List.mem_filter] at h
  obtain ⟨hl, ht⟩ := h
  have htv : entry.rtype = "video" := by simpa using ht
  by_cases hdir : fsIsDir fs (pathJoin cfg.basePath p) = true
  · rw [localList_eq cfg fs p hdir, mem_sortResources, List.mem_flatten] at hl
    obtain ⟨entries, hmem, hentry⟩ := hl
    rw [List.mem_map] at hmem
    obtain ⟨item, hitem, rfl⟩ := hmem
    rw [List.mem_append] at hitem
    rcases hitem with hitem | hitem
    · -- a directory entry would be typed "folder"
      rw [List.mem_map] at hitem
      obtain ⟨d, _, rfl⟩ := hitem
      unfold localItemEntries at hentry
      by_cases hhid : charStartsWith (basename d) "." = true
      · rw [if_pos hhid] at hentry
        cases hentry
      · rw [if_neg hhid] at hentry
        simp only [if_true, List.mem_singleton] at hentry
        subst hentry
        simp at htv
    · rw [List.mem_map] at hitem
      obtain ⟨q, hq, rfl⟩ := hitem
      rw [List.mem_filter] at hq
      obtain ⟨hqf, hqd⟩ := hq
      unfold localItemEntries at hentry
      by_cases hhid : charStartsWith (basename q) "." = true
      · rw [if_pos hhid] at hentry
        cases hentry
      · rw [if_neg hhid] at hentry
        simp only [if_false] at hentry
        by_cases hext : allowedExtOk cfg (extname (basename q)) = true
        · simp only [hext, Bool.not_true, Bool.false_eq_true, if_false] at hentry
          by_cases hrt : getResourceType (basename q) != "folder"
          · simp only [hrt, if_true] at hentry
            simp only [List.mem_singleton] at hentry
            subst hentry
            refine ⟨q, hqf, by simpa using hqd, ?_, by simpa using hhid, by simpa using htv⟩
            simp only at htv
            rw [htv]
          · simp only [hrt] at hentry
            cases hentry
        · simp only [hext] at hentry
          simp at hentry
  · have : localList cfg fs p = [] := by
      unfold localList localListCore readdirM
      simp only [Bool.not_eq_true] at hdir
      simp [hdir]
    rw [this] at hl
    cases hl

/-! ## Rename and move inversions -/

theorem charStartsWith_le {a b : String} (h : charStartsWith a b = true) :
    b.data.length ≤ a.data.length := by
  obtain ⟨u, hu⟩ := charStartsWith_ex h
  rw [hu]
  simp

theorem reloc_keep_of_short {q src : String} (h : q.data.length < src.data.length) :
    q ≠ src ∧ charStartsWith q (src ++ "/") = false := by
  constructor
  · exact ne_of_data_length (by omega)
  · by_contra hc
    rw [Bool.not_eq_false] at hc
    have h2 := charStartsWith_le hc
    rw [strData_append, List.length_append] at h2
    have h3 : (("/" : String)).data.length = 1 := rfl
    omega

theorem mem_renameFS_files_src {fs : MFS} {src : String} (dst : String)
    (h : src ∈ fs.files) : dst ∈ (renameFS fs src dst).files := by
  unfold renameFS
  simp only [List.mem_map]
  exact ⟨src, h, by simp⟩

theorem mem_renameFS_dirs_keep {fs : MFS} {q src : String} (dst : String)
    (hq : q ∈ fs.dirs) (h1 : q ≠ src)
    (h2 : charStartsWith q (src ++ "/") = false) :
    q ∈ (renameFS fs src dst).dirs := by
  unfold renameFS
  simp only [List.mem_map]
  exact ⟨q, hq, by simp [h1, h2]⟩

theorem mem_renameFS_files_elim {fs : MFS} {src dst q' : String}
    (h : q' ∈ (renameFS fs src dst).files) :
    ∃ q ∈ fs.files, q' =
      (if q = src then dst
       else if charStartsWith q (src ++ "/") then ⟨dst.data ++ q.data.drop src.data.length⟩
       else q) := by
  unfold renameFS at h
  simp only [List.mem_map] at h
  obtain ⟨q, hq, hrel⟩ := h
  exact ⟨q, hq, hrel.symm⟩

theorem mem_foldl_insert (chain : List String) (ds : List String) (d : String)
    (h : d ∈ ds) :
    d ∈ chain.foldl (fun ds q => if ds.contains q then ds else q :: ds) ds := by
  induction chain generalizing ds with
  | nil => exact h
  | cons q rest ih =>
    rw [List.foldl_cons]
    apply ih
    by_cases hc : ds.contains q = true
    · rw [if_pos hc]
      exact h
    · rw [if_neg hc]
      simp [h]

theorem mkdirP_ok_inv {fs fs1 : MFS} {p : String} (h : mkdirP fs p = .ok fs1) :
    fs1.files = fs.files ∧ ∀ d ∈ fs.dirs, d ∈ fs1.dirs := by
  unfold mkdirP at h
  by_cases hblock : (parentChain (p.data.length + 2) p).any (fun q => fs.files.contains q) = true
  · rw [if_pos hblock] at h
    cases h
  · rw [if_neg hblock] at h
    injection h with h
    subst h
    exact ⟨rfl, fun d hd => mem_foldl_insert _ _ d hd⟩

theorem localMove_ok_inv {cfg : LocalCfg} {fs fs' : MFS} {src tgt : String}
    (h : localMove cfg fs src tgt = .ok fs') :
    fsExistsB fs (pathJoin cfg.basePath src) = true ∧
    fsExistsB fs (pathJoin cfg.basePath tgt) = false ∧
    ∃ fs1, mkdirP fs (dirname (pathJoin cfg.basePath tgt)) = .ok fs1 ∧
      fs' = renameFS fs1 (pathJoin cfg.basePath src) (pathJoin cfg.basePath tgt) := by
  by_cases hsrc : fsExistsB fs (pathJoin cfg.basePath src) = true
  · by_cases htgt : fsExistsB fs (pathJoin cfg.basePath tgt) = true
    · exfalso
      unfold localMove at h
      simp [hsrc, htgt] at h
    · rw [Bool.not_eq_true] at htgt
      refine ⟨hsrc, htgt, ?_⟩
      unfold localMove at h
      simp only [hsrc, htgt] at h
      cases hmk : mkdirP fs (dirname (pathJoin cfg.basePath tgt)) with
      | error e =>
        exfalso
        simp [hmk] at h
      | ok fs1 =>
        simp only [hmk] at h
        simp at h
        exact ⟨fs1, rfl, h.symm⟩
  · exfalso
    rw [Bool.not_eq_true] at hsrc
    unfold localMove at h
    simp [hsrc] at h

theorem archiveVideo_local_inv {reg : Nat → Option Theme} {st st' : MFS}
    {themeId lib : Nat} {theme : Theme} {p : String}
    (hfound : reg themeId = some theme)
    (harch : archiveVideo (localWorldG reg) st themeId lib p = .ok st') :
    ∃ stM : MFS, stM.files = st.files ∧ (∀ d ∈ st.dirs, d ∈ stM.dirs) ∧
      st' = renameFS stM p
        (pathJoin (pathJoin (dirname p) (effArchiveFolderName theme)) (basename p)) := by
  unfold archiveVideo at harch
  simp only [localWorldG, hfound] at harch
  cases hinfo : (localStore plainCfg).getInfo st lib
      (pathJoin (dirname p) (effArchiveFolderName theme)) with
  | ok info =>
    simp only [hinfo] at harch
    have hmove : localMove plainCfg st p
        (pathJoin (pathJoin (dirname p) (effArchiveFolderName theme)) (basename p)) =
        .ok st' := by
      simp only [localStore] at harch
      cases hlm : localMove plainCfg st p
          (pathJoin (pathJoin (dirname p) (effArchiveFolderName theme)) (basename p)) with
      | ok s2 => rw [hlm] at harch; injection harch with h2; rw [h2]
      | error e => rw [hlm] at harch; cases harch
    obtain ⟨_, _, fs1, hmk, hrw⟩ := localMove_ok_inv hmove
    obtain ⟨hf, hd⟩ := mkdirP_ok_inv hmk
    refine ⟨fs1, by simpa using hf, ?_, by simpa [plainCfg, pathJoin_empty_left] using hrw⟩
    intro d hd2
    exact hd d hd2
  | error e =>
    simp only [hinfo] at harch
    cases hcf : (localStore plainCfg).createFolder st lib
        (pathJoin (dirname p) (effArchiveFolderName theme)) with
    | error e2 =>
      rw [hcf] at harch
      cases harch
    | ok stC =>
      rw [hcf] at harch
      have hmove : localMove plainCfg stC p
          (pathJoin (pathJoin (dirname p) (effArchiveFolderName theme)) (basename p)) =
          .ok st' := by
        simp only [localStore] at harch
        cases hlm : localMove plainCfg stC p
            (pathJoin (pathJoin (dirname p) (effArchiveFolderName theme)) (basename p)) with
        | ok s2 => rw [hlm] at harch; injection harch with h2; rw [h2]
        | error e3 => rw [hlm] at harch; cases harch
      have hcf2 : ∃ fsC1, mkdirP st
          (pathJoin (dirname p) (effArchiveFolderName theme)) = .ok fsC1 ∧ stC = fsC1 := by
        simp only [localStore, localCreateFolder, plainCfg, pathJoin_empty_left] at hcf
        cases hmk : mkdirP st (pathJoin (dirname p) (effArchiveFolderName theme)) with
        | ok fsC1 => rw [hmk] at hcf; injection hcf with h2; exact ⟨fsC1, rfl, h2.symm⟩
        | error e4 => rw [hmk] at hcf; cases hcf
      obtain ⟨fsC1, hmkC, rfl⟩ := hcf2
      obtain ⟨hfC, hdC⟩ := mkdirP_ok_inv hmkC
      obtain ⟨_, _, fs1, hmk, hrw⟩ := localMove_ok_inv hmove
      obtain ⟨hf, hd⟩ := mkdirP_ok_inv hmk
      refine ⟨fs1, by rw [hf, hfC], ?_, by simpa [plainCfg, pathJoin_empty_left] using hrw⟩
      intro d hd2
      exact hd d (hdC d hd2)

theorem unarchiveVideo_local_inv {reg : Nat → Option Theme} {st st' : MFS}
    {themeId lib : Nat} {theme : Theme} {p : String}
    (hfound : reg themeId = some theme)
    (hun : unarchiveVideo (localWorldG reg) st themeId lib p = .ok st') :
    charEndsWith (dirname p) (effArchiveFolderName theme) = true ∧
    ∃ stM : MFS, stM.files = st.files ∧ (∀ d ∈ st.dirs, d ∈ stM.dirs) ∧
      st' = renameFS stM p (pathJoin (dirname (dirname p)) (basename p)) := by
  unfold unarchiveVideo at hun
  simp only [localWorldG, hfound] at hun
  by_cases hguard : charEndsWith (dirname p) (effArchiveFolderName theme) = true
  · refine ⟨hguard, ?_⟩
    simp only [hguard, Bool.not_true, Bool.false_eq_true, if_false, localStore] at hun
    have hmove : localMove plainCfg st p
        (pathJoin (dirname (dirname p)) (basename p)) = .ok st' := by
      cases hlm : localMove plainCfg st p
          (pathJoin (dirname (dirname p)) (basename p)) with
      | ok s2 => rw [hlm] at hun; injection hun with h2; rw [h2]
      | error e => rw [hlm] at hun; cases hun
    obtain ⟨_, _, fs1, hmk, hrw⟩ := localMove_ok_inv hmove
    obtain ⟨hf, hd⟩ := mkdirP_ok_inv hmk
    exact ⟨fs1, by simpa using hf, fun d hd2 => hd d hd2,
      by simpa [plainCfg, pathJoin_empty_left] using hrw⟩
  · exfalso
    rw [Bool.not_eq_true] at hguard
    simp [hguard, localStore] at hun

/-! ## Claim C5 — archive/unarchive round trip -/

theorem pathJoin_not_endsWith_slash {a n : String} (hn : ∀ c ∈ n.data, c ≠ '/')
    (hne : n ≠ "") : charEndsWith (pathJoin a n) "/" = false := by
  by_contra hc
  rw [Bool.not_eq_false] at hc
  obtain ⟨u, hu⟩ := charEndsWith_ex hc
  rw [show (("/" : String)).data = ['/'] from rfl] at hu
  have hnd : n.data ≠ [] := fun hh => hne ((strEmpty_iff n).2 hh)
  rcases pathJoin_split (a := a) hne with h | ⟨y, h⟩
  · rw [h] at hu
    have hin : '/' ∈ n.data := by
      rw [show n.data = (⟨u ++ ['/']⟩ : String).data from by rw [← hu]]
      simp
    exact hn '/' hin rfl
  · rw [h, strMk_eq_iff] at hu
    have hrev := congrArg List.reverse hu
    simp only [List.reverse_append, List.reverse_cons, List.reverse_nil,
      List.nil_append, List.append_assoc] at hrev
    cases hnrev : n.data.reverse with
    | nil => exact hnd (by simpa using congrArg List.reverse hnrev)
    | cons c cs =>
      rw [hnrev] at hrev
      have hc2 : c = '/' := by
        have := congrArg (fun l => l.head?) hrev
        simpa using this
      have hcm : c ∈ n.data := by
        rw [← List.mem_reverse, hnrev]
        simp
      exact hn c hcm hc2

theorem fsIsDir_mem {fs : MFS} {r : String} (h : fsIsDir fs r = true)
    (hr : r ≠ "/") : r ∈ fs.dirs := by
  unfold fsIsDir at h
  rw [Bool.or_eq_true] at h
  rcases h with h | h
  · exact absurd (by simpa using h) hr
  · simpa using h

theorem fsIsDir_of_mem {fs : MFS} {r : String} (h : r ∈ fs.dirs) :
    fsIsDir fs r = true := by
  unfold fsIsDir
  rw [Bool.or_eq_true]
  right
  simpa using h

/-- C5: archiving an unpublished video sitting directly under a
resource root and then unarchiving the resulting archived path restores
the file at its original `fullPath`, and the subsequent resolution
reports it `isPublished = false`, provided both moves succeed. -/
theorem claim_C5 (reg : Nat → Option Theme) (fs fs1 fs2 : MFS)
    (themeId lib : Nat) (theme : Theme) (r name : String)
    (hfound : reg themeId = some theme)
    (hroot : (⟨lib, r⟩ : ResourceRoot) ∈ theme.resourceRoots)
    (hr1 : r ≠ "") (hr2 : charEndsWith r "/" = false)
    (hname1 : ∀ c ∈ name.data, c ≠ '/')
    (hname2 : charStartsWith name "." = false)
    (hname3 : getResourceType name = "video")
    (hafn : ∀ c ∈ (effArchiveFolderName theme).data, c ≠ '/')
    (hdir : fsIsDir fs r = true)
    (hfile : (r ++ "/" ++ name) ∈ fs.files)
    (harch : archiveVideo (localWorldG reg) fs themeId lib (r ++ "/" ++ name) = .ok fs1)
    (hunarch : unarchiveVideo (localWorldG reg) fs1 themeId lib
      (pathJoin (pathJoin r (effArchiveFolderName theme)) name) = .ok fs2) :
    (r ++ "/" ++ name) ∈ fs2.files ∧
    ∃ videos, getThemeVideos (localWorldG reg) fs2 themeId = .ok videos ∧
      ∃ v ∈ videos, v.fullPath = r ++ "/" ++ name ∧ v.isPublished = false := by
  have hafne := effArchiveFolderName_ne_empty theme
  have hnameNe : name ≠ "" := by
    intro hh
    rw [hh] at hname3
    exact absurd hname3 (by decide)
  have hdp : dirname (r ++ "/" ++ name) = r := dirname_concat hr1 hname1
  have hbp : basename (r ++ "/" ++ name) = name := basename_concat hname1
  have hrSlash : r ≠ "/" := by
    intro hh
    rw [hh] at hr2
    exact absurd hr2 (by decide)
  have hplen : (r ++ "/" ++ name).data.length =
      r.data.length + 1 + name.data.length := by
    rw [strData_append, strData_append]
    simp
    omega
  have hlt1 : r.data.length < (pathJoin r (effArchiveFolderName theme)).data.length :=
    pathJoin_len_lt_left hafne
  have hlt2 : (pathJoin r (effArchiveFolderName theme)).data.length <
      (pathJoin (pathJoin r (effArchiveFolderName theme)) name).data.length :=
    pathJoin_len_lt_left hnameNe
  -- unfold the first move
  obtain ⟨stM, hMf, hMd, hst1⟩ := archiveVideo_local_inv hfound harch
  rw [hdp, hbp] at hst1
  -- unfold the second move
  obtain ⟨hguard, stM2, hM2f, hM2d, hst2⟩ := unarchiveVideo_local_inv hfound hunarch
  have hdtgt : dirname (pathJoin (pathJoin r (effArchiveFolderName theme)) name) =
      pathJoin r (effArchiveFolderName theme) :=
    dirname_pathJoin (pathJoin_ne_empty hafne) hnameNe
      (pathJoin_not_endsWith_slash hafn hafne) hname1
  have hdap : dirname (pathJoin r (effArchiveFolderName theme)) = r :=
    dirname_pathJoin hr1 hafne hr2 hafn
  have hbtgt : basename (pathJoin (pathJoin r (effArchiveFolderName theme)) name) = name :=
    basename_pathJoin hnameNe hname1
  rw [hdtgt, hdap, hbtgt, pathJoin_eq hr1 hnameNe hr2] at hst2
  -- the archived file is present in fs1
  have htgt_fs1 : (pathJoin (pathJoin r (effArchiveFolderName theme)) name) ∈ fs1.files := by
    rw [hst1]
    exact mem_renameFS_files_src _ (by rw [hMf]; exact hfile)
  -- the original path is present in fs2
  have hp_fs2 : (r ++ "/" ++ name) ∈ fs2.files := by
    rw [hst2]
    exact mem_renameFS_files_src _ (by rw [hM2f]; exact htgt_fs1)
  -- the root directory survives both moves
  have hr_fs : r ∈ fs.dirs := fsIsDir_mem hdir hrSlash
  have hr_fs1 : r ∈ fs1.dirs := by
    rw [hst1]
    obtain ⟨hne, hsw⟩ := @reloc_keep_of_short r (r ++ "/" ++ name) (by omega)
    exact mem_renameFS_dirs_keep _ (hMd r hr_fs) hne hsw
  have hr_fs2 : r ∈ fs2.dirs := by
    rw [hst2]
    obtain ⟨hne, hsw⟩ := @reloc_keep_of_short r
      (pathJoin (pathJoin r (effArchiveFolderName theme)) name) (by omega)
    exact mem_renameFS_dirs_keep _ (hM2d r hr_fs1) hne hsw
  refine ⟨hp_fs2, inventory (localStore plainCfg) fs2 theme,
    getThemeVideos_eq_inventory (localWorldG reg) fs2 themeId theme hfound, ?_⟩
  have hentry := mem_localBrowse_intro plainCfg fs2 r (r ++ "/" ++ name)
    hp_fs2 (by simpa [plainCfg, pathJoin_empty_left] using hdp)
    (by simpa [plainCfg, pathJoin_empty_left] using fsIsDir_of_mem hr_fs2)
    (by rw [hbp]; exact hname2) rfl (by rw [hbp]; exact hname3)
  have hmain := @mem_rootContribution_main MFS (localStore plainCfg) fs2
    (effArchiveFolderName theme) ⟨lib, r⟩ (localBrowse plainCfg fs2 r "video") _
    rfl hentry rfl
  refine ⟨_, mem_inventory_of_root hroot hmain, ?_, rfl⟩
  simp only
  rw [hbp]

/-- Witness for C5: archiving `a.mp4` in scenario A and unarchiving it
restores the original filesystem. -/
theorem claim_C5_witness :
    ("/videos/food" ++ "/" ++ "a.mp4") ∈ fsA.files ∧
    ∃ videos, getThemeVideos (localWorldG (fun i => if i = 1 then some themeA else none))
        fsA 1 = .ok videos ∧
      ∃ v ∈ videos, v.fullPath = "/videos/food" ++ "/" ++ "a.mp4" ∧
        v.isPublished = false :=
  claim_C5 (fun i => if i = 1 then some themeA else none) fsA
    { dirs := ["/videos", "/videos/food", "/videos/food/published"]
      files := ["/videos/food/published/a.mp4", "/videos/food/b.mp4",
                "/videos/food/published/c.mp4"] }
    fsA 1 1 themeA "/videos/food" "a.mp4" rfl (by decide) (by decide) (by decide)
    (by decide) (by decide) (by decide) (by decide) (by decide) (by decide)
    (by decide) (by decide)

/-! ## Claim C6 — idempotence of the net batch-archive effect -/

theorem charStartsWith_intro (x : String) (u : List Char) :
    charStartsWith ⟨x.data ++ u⟩ x = true := by
  unfold charStartsWith
  rw [isPrefixOf_ex]
  exact ⟨u, rfl⟩

/-- After an all-success run of the archive loop over entries whose
paths sit directly under the root `r`, no file directly under `r`
is a path the loop attempted, and every surviving such file was
already there before the run. -/
theorem archiveLoop_clears {reg : Nat → Option Theme} {themeId : Nat} {theme : Theme}
    (hfound : reg themeId = some theme) {r : String} (hr1 : r ≠ "")
    (hafn : ∀ c ∈ (effArchiveFolderName theme).data, c ≠ '/')
    (E : List VideoEntry)
    (hE : ∀ v ∈ E, ∃ n, v.fullPath = r ++ "/" ++ n ∧ n ≠ "" ∧ ∀ c ∈ n.data, c ≠ '/')
    {st st' : MFS} {results : List ItemResult}
    (hrun : runBatchLoop
      (fun s v => archiveVideo (localWorldG reg) s themeId v.libraryId v.fullPath)
      st E = (results, st'))
    (hok : ∀ res ∈ results, res.success = true) :
    ∀ q ∈ st'.files, dirname q = r → q ∈ st.files ∧ ∀ v ∈ E, v.fullPath ≠ q := by
  have hafne := effArchiveFolderName_ne_empty theme
  induction E generalizing st results with
  | nil =>
    simp only [runBatchLoop, Prod.mk.injEq] at hrun
    obtain ⟨_, hst⟩ := hrun
    subst hst
    exact fun q hq _ => ⟨hq, by simp⟩
  | cons v rest ih =>
    simp only [runBatchLoop] at hrun
    cases harch : archiveVideo (localWorldG reg) st themeId v.libraryId v.fullPath with
    | ok s2 =>
      simp only [harch] at hrun
      rcases hrest : runBatchLoop
        (fun s v => archiveVideo (localWorldG reg) s themeId v.libraryId v.fullPath)
        s2 rest with ⟨results2, s3⟩
      simp only [hrest, Prod.mk.injEq] at hrun
      obtain ⟨hres, hst⟩ := hrun
      subst hst
      have hok2 : ∀ res ∈ results2, res.success = true := by
        intro res hres2
        exact hok res (by rw [← hres]; exact List.mem_cons_of_mem _ hres2)
      have hihm := ih (fun v hv => hE v (List.mem_cons_of_mem _ hv)) hrest hok2
      obtain ⟨n, hpn, hnne, hnsf⟩ := hE v (List.mem_cons_self _ _)
      obtain ⟨stM, hMf, hMd, hs2⟩ := archiveVideo_local_inv hfound harch
      rw [hpn, dirname_concat hr1 hnsf, basename_concat hnsf] at hs2
      intro q hq hdq
      obtain ⟨hq2, hrest_ne⟩ := hihm q hq hdq
      rw [hs2] at hq2
      obtain ⟨q0, hq0, hqeq⟩ := mem_renameFS_files_elim hq2
      rw [hMf] at hq0
      by_cases hc1 : q0 = r ++ "/" ++ n
      · exfalso
        rw [if_pos hc1] at hqeq
        subst hqeq
        rw [dirname_pathJoin (pathJoin_ne_empty hafne) hnne
          (pathJoin_not_endsWith_slash hafn hafne) hnsf] at hdq
        exact ne_of_data_length
          (Nat.ne_of_gt (pathJoin_len_lt_left hafne)) hdq
      · rw [if_neg hc1] at hqeq
        by_cases hc2 : charStartsWith q0 (r ++ "/" ++ n ++ "/") = true
        · exfalso
          rw [if_pos hc2] at hqeq
          obtain ⟨u, hu⟩ := charStartsWith_ex hc2
          rw [strData_append, show (("/" : String)).data = ['/'] from rfl,
            List.append_assoc] at hu
          have hdrop : q0.data.drop (r ++ "/" ++ n).data.length = '/' :: u := by
            rw [hu]
            simpa using List.drop_left (r ++ "/" ++ n).data ('/' :: u)
          rw [hdrop] at hqeq
          have hqform : q = ⟨(pathJoin (pathJoin r (effArchiveFolderName theme)) n
              ++ "/").data ++ u⟩ := by
            rw [hqeq, strData_append,
              show (("/" : String)).data = ['/'] from rfl, List.append_assoc]
            rfl
          have hsw : charStartsWith q
              (pathJoin (pathJoin r (effArchiveFolderName theme)) n ++ "/") = true := by
            rw [hqform]
            exact charStartsWith_intro _ u
          have hge := dirname_len_ge hsw
          rw [hdq] at hge
          have h1 := pathJoin_len_lt_left (a := r) hafne
          have h2 := pathJoin_len_lt_left
            (a := pathJoin r (effArchiveFolderName theme)) hnne
          omega
        · rw [if_neg hc2] at hqeq
          subst hqeq
          refine ⟨hq0, ?_⟩
          intro v2 hv2
          rcases List.mem_cons.1 hv2 with hv2 | hv2
          · rw [hv2, hpn]
            exact fun hcontra => hc1 hcontra.symm
          · exact hrest_ne v2 hv2
    | error e =>
      simp only [harch] at hrun
      rcases hrest : runBatchLoop
        (fun s v => archiveVideo (localWorldG reg) s themeId v.libraryId v.fullPath)
        st rest with ⟨results2, s3⟩
      simp only [hrest, Prod.mk.injEq] at hrun
      obtain ⟨hres, hst⟩ := hrun
      exfalso
      have := hok ⟨v.fullPath, false, some e⟩ (by rw [← hres]; exact List.mem_cons_self _ _)
      simp at this

/-- A theme with two nested resource roots: the second root is the
first root's archive folder itself. -/
def themeC6 : Theme :=
  { archiveFolderName := none
    resourceRoots := [⟨1, "/v"⟩, ⟨1, "/v/published"⟩] }

def fsC6 : MFS :=
  { dirs := ["/v", "/v/published"]
    files := ["/v/a.mp4", "/v/published/a.mp4"] }

def PC6 : List String := ["/v/a.mp4", "/v/published/a.mp4"]

def fs1C6 : MFS :=
  { dirs := ["/v/published/published", "/v", "/v/published"]
    files := ["/v/a.mp4", "/v/published/published/a.mp4"] }

def fs2C6 : MFS :=
  { dirs := ["/v/published/published", "/v", "/v/published"]
    files := ["/v/published/a.mp4", "/v/published/published/a.mp4"] }

/-- C6 counterexample: with nested resource roots both `/v/a.mp4` and
`/v/published/a.mp4` are paths of originally-unpublished videos, yet the
second identical batch-archive call still performs a move (the first
call freed the target that had blocked `/v/a.mp4`), so the filesystem
after two calls differs from the filesystem after one. -/
theorem claim_C6_counterexample :
    batchArchiveVideos (localWorld themeC6) fsC6 1 PC6 = .ok
      ({ total := 2
         archived := 1
         failed := 1
         results := [⟨"/v/a.mp4", false, some "目标路径已存在: /v/published/a.mp4"⟩,
                     ⟨"/v/published/a.mp4", true, none⟩] }, fs1C6) ∧
    batchArchiveVideos (localWorld themeC6) fs1C6 1 PC6 = .ok
      ({ total := 2
         archived := 1
         failed := 0
         results := [⟨"/v/a.mp4", true, none⟩] }, fs2C6) ∧
    fs2C6 ≠ fs1C6 := by
  refine ⟨by decide, by decide, by decide⟩

/-- C6 (amended: single resource root, first call all-success): when
the theme has exactly one resource root and the first batch-archive
call over `P` reports zero failures, the second identical call finds no
eligible video, performs no move, and returns the same filesystem with
an empty results array. -/
theorem claim_C6 (reg : Nat → Option Theme) (fs fs1 : MFS) (themeId lib : Nat)
    (theme : Theme) (r : String) (P : List String) (rep1 : ArchiveReport)
    (hfound : reg themeId = some theme)
    (hroots : theme.resourceRoots = [⟨lib, r⟩])
    (hr1 : r ≠ "") (hr2 : charEndsWith r "/" = false) (hrd : r ≠ ".")
    (hafn : ∀ c ∈ (effArchiveFolderName theme).data, c ≠ '/')
    (hdir : fsIsDir fs r = true)
    (hcall1 : batchArchiveVideos (localWorldG reg) fs themeId P = .ok (rep1, fs1))
    (hfail : rep1.failed = 0) :
    batchArchiveVideos (localWorldG reg) fs1 themeId P =
      .ok ({ total := P.length, archived := 0, failed := 0, results := [] }, fs1) := by
  have hfW : (localWorldG reg).themes themeId = some theme := hfound
  have hrSlash : r ≠ "/" := by
    intro hh
    rw [hh] at hr2
    exact absurd hr2 (by decide)
  -- invert the first call
  unfold batchArchiveVideos at hcall1
  simp only [hfW] at hcall1
  rw [getThemeVideos_eq_inventory (localWorldG reg) fs themeId theme hfW] at hcall1
  rcases hrun : runBatchLoop
      (fun st v => archiveVideo (localWorldG reg) st themeId v.libraryId v.fullPath) fs
      ((inventory (localWorldG reg).store fs theme).filter
        (fun v => P.contains v.fullPath && !v.isPublished)) with ⟨results, s1⟩
  simp only [hrun, Except.ok.injEq, Prod.mk.injEq] at hcall1
  obtain ⟨hrep, hfs⟩ := hcall1
  subst hfs
  -- all attempts succeeded
  have hok : ∀ res ∈ results, res.success = true := by
    have hlen : (results.filter (fun r => !r.success)).length = 0 := by
      rw [show (results.filter (fun r => !r.success)).length = rep1.failed from by
        rw [← hrep]]
      exact hfail
    have hnil := List.eq_nil_of_length_eq_zero hlen
    intro res hres
    by_contra hcontra
    have : res ∈ results.filter (fun r => !r.success) := by
      rw [List.mem_filter]
      exact ⟨hres, by simp [Bool.not_eq_true] at hcontra ⊢; exact hcontra⟩
    rw [hnil] at this
    cases this
  -- shape of the attempted entries
  have hE : ∀ v ∈ (inventory (localWorldG reg).store fs theme).filter
      (fun v => P.contains v.fullPath && !v.isPublished),
      ∃ n, v.fullPath = r ++ "/" ++ n ∧ n ≠ "" ∧ ∀ c ∈ n.data, c ≠ '/' := by
    intro v hv
    rw [List.mem_filter] at hv
    obtain ⟨hvinv, hvp⟩ := hv
    obtain ⟨rp, hrp, hvc⟩ := mem_inventory_elim hvinv
    rw [hroots, List.mem_singleton] at hrp
    subst hrp
    rcases mem_rootContribution hvc with ⟨l, rinfo, hbrowse, hrl, hrt, hveq⟩ |
      ⟨l, rinfo, hbrowse, hrl, hrt, hveq⟩
    · have hleq : localBrowse plainCfg fs r "video" = l := by
        have hb2 : (Except.ok (localBrowse plainCfg fs r "video") :
            Except String (List ResourceInfo)) = Except.ok l := hbrowse
        simpa using hb2
      rw [← hleq] at hrl
      obtain ⟨q, hqf, hdq, hrieq, hhid, htype⟩ := mem_localBrowse_elim hrl
      have hbne : basename q ≠ "" := by
        intro hh
        rw [hh] at htype
        exact absurd htype (by decide)
      refine ⟨basename q, ?_, hbne, basename_slash_free q⟩
      rw [hveq, hrieq]
    · exfalso
      rw [hveq] at hvp
      simp at hvp
  have hclear := archiveLoop_clears hfW hr1 hafn _ hE hrun hok
  -- the second inventory has no eligible video
  have helig2 : (inventory (localWorldG reg).store s1 theme).filter
      (fun v => P.contains v.fullPath && !v.isPublished) = [] := by
    rw [List.filter_eq_nil_iff]
    intro v hvinv hvp
    obtain ⟨rp, hrp, hvc⟩ := mem_inventory_elim hvinv
    rw [hroots, List.mem_singleton] at hrp
    subst hrp
    rcases mem_rootContribution hvc with ⟨l, rinfo, hbrowse, hrl, hrt, hveq⟩ |
      ⟨l, rinfo, hbrowse, hrl, hrt, hveq⟩
    · have hleq : localBrowse plainCfg s1 r "video" = l := by
        have hb2 : (Except.ok (localBrowse plainCfg s1 r "video") :
            Except String (List ResourceInfo)) = Except.ok l := hbrowse
        simpa using hb2
      rw [← hleq] at hrl
      obtain ⟨q, hqf, hdq, hrieq, hhid, htype⟩ := mem_localBrowse_elim hrl
      have hdqr : dirname q = r := by
        simpa [plainCfg, pathJoin_empty_left] using hdq
      have hdecomp : dirname q ++ "/" ++ basename q = q :=
        dirname_basename_decomp q (by rw [hdqr]; exact hrd) (by rw [hdqr]; exact hrSlash)
      rw [hdqr] at hdecomp
      have hvq : v.fullPath = q := by
        rw [hveq, hrieq]
        exact hdecomp
      obtain ⟨hqfs, hnotE⟩ := hclear q hqf hdqr
      have hentry := mem_localBrowse_intro plainCfg fs r q hqfs
        (by simpa [plainCfg, pathJoin_empty_left] using hdqr)
        (by simpa [plainCfg, pathJoin_empty_left] using hdir) hhid rfl htype
      have hmain := @mem_rootContribution_main MFS (localStore plainCfg) fs
        (effArchiveFolderName theme) ⟨lib, r⟩ (localBrowse plainCfg fs r "video") _
        rfl hentry rfl
      have hinv2 := mem_inventory_of_root
        (by rw [hroots]; exact List.mem_singleton_self _) hmain
      have hinE : (⟨basename q, lib, r, r ++ "/" ++ basename q, false⟩ : VideoEntry) ∈
          (inventory (localWorldG reg).store fs theme).filter
            (fun v => P.contains v.fullPath && !v.isPublished) := by
        rw [List.mem_filter]
        refine ⟨hinv2, ?_⟩
        simp only [Bool.and_eq_true]
        constructor
        · show P.contains (r ++ "/" ++ basename q) = true
          rw [hdecomp, ← hvq]
          rw [Bool.and_eq_true] at hvp
          exact hvp.1
        · simp
      exact hnotE _ hinE hdecomp
    · rw [hveq] at hvp
      simp at hvp
  -- the second call runs over the empty list
  have hrun2 : runBatchLoop
      (fun st v => archiveVideo (localWorldG reg) st themeId v.libraryId v.fullPath) s1
      ((inventory (localWorldG reg).store s1 theme).filter
        (fun v => P.contains v.fullPath && !v.isPublished)) = ([], s1) := by
    rw [helig2]
    rfl
  exact batchArchiveVideos_run (localWorldG reg) s1 themeId theme P hfW [] s1 hrun2

/-- Witness for C6: in scenario A, archiving `a.mp4` once succeeds and
the second identical call is a no-op. -/
theorem claim_C6_witness :
    batchArchiveVideos (localWorldG (fun i => if i = 1 then some themeA else none))
      { dirs := ["/videos", "/videos/food", "/videos/food/published"]
        files := ["/videos/food/published/a.mp4", "/videos/food/b.mp4",
                  "/videos/food/published/c.mp4"] } 1 ["/videos/food/a.mp4"] =
      .ok ({ total := 1, archived := 0, failed := 0, results := [] },
        { dirs := ["/videos", "/videos/food", "/videos/food/published"]
          files := ["/videos/food/published/a.mp4", "/videos/food/b.mp4",
                    "/videos/food/published/c.mp4"] }) :=
  claim_C6 (fun i => if i = 1 then some themeA else none) fsA
    { dirs := ["/videos", "/videos/food", "/videos/food/published"]
      files := ["/videos/food/published/a.mp4", "/videos/food/b.mp4",
                "/videos/food/published/c.mp4"] }
    1 1 themeA "/videos/food" ["/videos/food/a.mp4"]
    { total := 1
      archived := 1
      failed := 0
      results := [⟨"/videos/food/a.mp4", true, none⟩] }
    rfl rfl (by decide) (by decide) (by decide) (by decide) (by decide)
    (by decide) rfl

end Spo
